import Mathlib

/-!
Verification of the job-scraper script (src/scrape.py) against its
natural-language specification.

The script is shallowly embedded: each scraper becomes a pure Lean function
over an explicit "world" structure that records what the external web site
(and the Playwright browser) would answer at every interaction point.
Network requests, DOM queries and page navigations that can raise in Python
are modelled with Option/Except; exceptions that the Python code swallows
are folded into the functions, exceptions that propagate surface as
Except.error. All definitions are executable so that concrete runs can be
evaluated by the kernel.
-/

/-! ## Whitespace and clean_text (src/scrape.py lines 14-15 and 355-356)

clean_text(s) = re.sub(r"\s+", " ", (s or "").strip()).
The whitespace class is modelled by the ASCII whitespace characters
(space, tab, newline, carriage return, vertical tab, form feed); Python's
str.strip and re's \s agree on these. -/

def pySpace (c : Char) : Bool :=
  c = ' ' || c = '\t' || c = '\n' || c = '\r' || c = '\x0b' || c = '\x0c'

/-- Leading-whitespace removal, the left half of str.strip(). -/
def stripL (l : List Char) : List Char := l.dropWhile pySpace

/-- Trailing-whitespace removal, the right half of str.strip(). -/
def stripR (l : List Char) : List Char := (l.reverse.dropWhile pySpace).reverse

/-- str.strip(): drop whitespace from both ends. -/
def pyStrip (l : List Char) : List Char := stripR (stripL l)

/-- One pass of re.sub(r"\s+", " ", ·): each maximal run of whitespace
becomes a single space. The Bool flag records whether the previous
character was part of a whitespace run already replaced. -/
def collapseGo : Bool → List Char → List Char
  | _, [] => []
  | prev, c :: cs =>
    if pySpace c then
      if prev then collapseGo true cs else ' ' :: collapseGo true cs
    else c :: collapseGo false cs

def collapseWS (l : List Char) : List Char := collapseGo false l

/-- clean_text from src/scrape.py: `(s or "").strip()` then the \s+ → " "
substitution. None maps to the empty string because None is falsy. -/
def clean_text (s : Option String) : String :=
  String.mk (collapseWS (pyStrip (s.getD "").toList))

/-! ### Lemmas about collapseGo / strip -/

theorem dropWhile_head_all (l : List Char) :
    ((l.dropWhile pySpace).head?.all fun c => !pySpace c) = true := by
  induction l with
  | nil => rfl
  | cons c cs ih =>
    rw [List.dropWhile_cons]
    by_cases h : pySpace c = true
    · simpa [h] using ih
    · simp [h]

theorem collapseGo_true_eq (l : List Char) :
    collapseGo true l = collapseGo false (stripL l) := by
  induction l with
  | nil => rfl
  | cons c cs ih =>
    by_cases h : pySpace c = true
    · simpa [collapseGo, h, stripL, List.dropWhile_cons] using ih
    · simp [collapseGo, h, stripL, List.dropWhile_cons]

theorem collapseGo_true_head (l : List Char) :
    ((collapseGo true l).head?.all fun c => !pySpace c) = true := by
  induction l with
  | nil => rfl
  | cons c cs ih =>
    by_cases h : pySpace c = true
    · simpa [collapseGo, h] using ih
    · simp [collapseGo, h]

theorem collapseGo_false_head (l : List Char) :
    (collapseGo false l).head? =
      l.head?.map (fun c => if pySpace c then ' ' else c) := by
  cases l with
  | nil => rfl
  | cons c cs =>
    by_cases h : pySpace c = true
    · simp [collapseGo, h]
    · simp [collapseGo, h]

/-- No two consecutive whitespace characters survive the substitution. -/
theorem collapseGo_chain (l : List Char) (b : Bool) :
    List.Chain' (fun a c => ¬(pySpace a = true ∧ pySpace c = true))
      (collapseGo b l) := by
  induction l generalizing b with
  | nil => cases b <;> exact List.chain'_nil
  | cons c cs ih =>
    by_cases h : pySpace c = true
    · cases b with
      | true => simpa [collapseGo, h] using ih true
      | false =>
        rw [show collapseGo false (c :: cs) = ' ' :: collapseGo true cs by
          simp [collapseGo, h]]
        rw [List.chain'_cons']
        refine ⟨?_, ih true⟩
        intro y hy
        have hh := collapseGo_true_head cs
        rw [hy] at hh
        simp only [Option.all_some] at hh
        intro hcon
        rw [hcon.2] at hh
        simp at hh
    · rw [show collapseGo b (c :: cs) = c :: collapseGo false cs by
        cases b <;> simp [collapseGo, h]]
      rw [List.chain'_cons']
      refine ⟨?_, ih false⟩
      intro y _
      intro hcon
      exact absurd hcon.1 h

/-- Every whitespace character in the output is a plain space. -/
theorem collapseGo_spaces (l : List Char) (b : Bool) :
    ∀ c ∈ collapseGo b l, pySpace c = true → c = ' ' := by
  induction l generalizing b with
  | nil => intro c hc; cases b <;> simp [collapseGo] at hc
  | cons a cs ih =>
    by_cases h : pySpace a = true
    · cases b with
      | true =>
        intro c hc
        rw [show collapseGo true (a :: cs) = collapseGo true cs by
          simp [collapseGo, h]] at hc
        exact ih true c hc
      | false =>
        intro c hc
        rw [show collapseGo false (a :: cs) = ' ' :: collapseGo true cs by
          simp [collapseGo, h]] at hc
        rcases List.mem_cons.mp hc with h1 | h2
        · intro _; exact h1
        · exact ih true c h2
    · intro c hc
      rw [show collapseGo b (a :: cs) = a :: collapseGo false cs by
        cases b <;> simp [collapseGo, h]] at hc
      rcases List.mem_cons.mp hc with h1 | h2
      · intro hsp; exact absurd (h1 ▸ hsp) h
      · exact ih false c h2

theorem collapseGo_false_nil_iff (l : List Char) :
    collapseGo false l = [] ↔ l = [] := by
  cases l with
  | nil => simp [collapseGo]
  | cons c cs =>
    constructor
    · intro h
      by_cases hp : pySpace c = true <;> simp [collapseGo, hp] at h
    · intro h; exact absurd h (List.cons_ne_nil c cs)

theorem collapseGo_true_ne_nil (l : List Char) (c : Char) (hc : c ∈ l)
    (hsp : pySpace c = false) : collapseGo true l ≠ [] := by
  induction l with
  | nil => cases hc
  | cons a cs ih =>
    by_cases h : pySpace a = true
    · rw [show collapseGo true (a :: cs) = collapseGo true cs by
        simp [collapseGo, h]]
      rcases List.mem_cons.mp hc with h1 | h2
      · rw [h1] at hsp; rw [hsp] at h; cases h
      · exact ih h2
    · simp [collapseGo, h]

theorem getLast?_cons_of_ne_nil {α : Type} (a : α) (l : List α) (h : l ≠ []) :
    (a :: l).getLast? = l.getLast? := by
  cases l with
  | nil => exact absurd rfl h
  | cons b t => exact List.getLast?_cons_cons

theorem mem_of_getLast?_eq {α : Type} {l : List α} {x : α}
    (h : l.getLast? = some x) : x ∈ l := by
  induction l with
  | nil => cases h
  | cons a t ih =>
    cases t with
    | nil =>
      simp only [List.getLast?_singleton, Option.some.injEq] at h
      rw [← h]; exact List.mem_singleton_self a
    | cons b t' =>
      rw [List.getLast?_cons_cons] at h
      exact List.mem_cons_of_mem a (ih h)

/-- If the input ends in a non-whitespace character, so does the output. -/
theorem collapseGo_last (l : List Char) (b : Bool)
    (h : (l.getLast?.all fun c => !pySpace c) = true) :
    ((collapseGo b l).getLast?.all fun c => !pySpace c) = true := by
  induction l generalizing b with
  | nil => cases b <;> simp [collapseGo]
  | cons a cs ih =>
    cases cs with
    | nil =>
      simp only [List.getLast?_singleton, Option.all_some] at h
      have hsp : pySpace a = false := by
        cases hpa : pySpace a
        · rfl
        · rw [hpa] at h; simp at h
      rw [show collapseGo b [a] = [a] by cases b <;> simp [collapseGo, hsp]]
      simp [List.getLast?_singleton, hsp]
    | cons d ds =>
      have hlast : ((d :: ds).getLast?.all fun c => !pySpace c) = true := by
        rwa [List.getLast?_cons_cons] at h
      by_cases hp : pySpace a = true
      · -- input starts with whitespace; the tail still ends non-whitespace
        obtain ⟨x, hx⟩ : ∃ x, (d :: ds).getLast? = some x := by
          cases hgl : (d :: ds).getLast? with
          | none =>
            rw [List.getLast?_eq_none_iff] at hgl
            exact absurd hgl (List.cons_ne_nil d ds)
          | some x => exact ⟨x, rfl⟩
        have hxmem : x ∈ d :: ds := mem_of_getLast?_eq hx
        have hxsp : pySpace x = false := by
          rw [hx] at hlast
          simp only [Option.all_some] at hlast
          cases hps : pySpace x
          · rfl
          · rw [hps] at hlast; simp at hlast
        have htail : collapseGo true (d :: ds) ≠ [] :=
          collapseGo_true_ne_nil (d :: ds) x hxmem hxsp
        cases b with
        | true =>
          rw [show collapseGo true (a :: d :: ds) = collapseGo true (d :: ds) by
            simp [collapseGo, hp]]
          exact ih true hlast
        | false =>
          rw [show collapseGo false (a :: d :: ds) = ' ' :: collapseGo true (d :: ds) by
            simp [collapseGo, hp]]
          rw [getLast?_cons_of_ne_nil _ _ htail]
          exact ih true hlast
      · rw [show collapseGo b (a :: d :: ds) = a :: collapseGo false (d :: ds) by
          cases b <;> simp [collapseGo, hp]]
        have htail : collapseGo false (d :: ds) ≠ [] := by
          rw [Ne, collapseGo_false_nil_iff]
          exact List.cons_ne_nil d ds
        rw [getLast?_cons_of_ne_nil _ _ htail]
        exact ih false hlast

/-- collapseGo is the identity on already-normalized lists. -/
theorem collapseGo_id (l : List Char)
    (hch : List.Chain' (fun a c => ¬(pySpace a = true ∧ pySpace c = true)) l)
    (hsp : ∀ c ∈ l, pySpace c = true → c = ' ') :
    collapseGo false l = l := by
  induction l with
  | nil => rfl
  | cons a cs ih =>
    rw [List.chain'_cons'] at hch
    obtain ⟨hhd, htl⟩ := hch
    have ihcs : collapseGo false cs = cs :=
      ih htl (fun c hc h => hsp c (List.mem_cons_of_mem a hc) h)
    by_cases hp : pySpace a = true
    · have ha : a = ' ' := hsp a (List.mem_cons_self a cs) hp
      have hcs : collapseGo true cs = collapseGo false cs := by
        cases cs with
        | nil => rfl
        | cons d ds =>
          have hd : pySpace d = false := by
            have := hhd d rfl
            cases hpd : pySpace d
            · rfl
            · exact absurd ⟨hp, hpd⟩ this
          simp [collapseGo, hd]
      rw [show collapseGo false (a :: cs) = ' ' :: collapseGo true cs by
        simp [collapseGo, hp]]
      rw [hcs, ihcs, ha]
    · rw [show collapseGo false (a :: cs) = a :: collapseGo false cs by
        simp [collapseGo, hp]]
      rw [ihcs]

theorem head?_of_isPre {α : Type} (l₁ l₂ : List α) (h : l₁ <+: l₂)
    (hne : l₁ ≠ []) : l₂.head? = l₁.head? := by
  obtain ⟨t, ht⟩ := h
  cases l₁ with
  | nil => exact absurd rfl hne
  | cons a l => rw [← ht]; rfl

theorem dropWhile_isSuf (p : Char → Bool) (l : List Char) :
    l.dropWhile p <:+ l := by
  induction l with
  | nil => exact List.suffix_refl []
  | cons a t ih =>
    rw [List.dropWhile_cons]
    by_cases h : p a = true
    · rw [if_pos h]
      exact ih.trans (List.suffix_cons a t)
    · rw [if_neg h]

/-- The strip step leaves no leading whitespace. -/
theorem pyStrip_head (l : List Char) :
    ((pyStrip l).head?.all fun c => !pySpace c) = true := by
  unfold pyStrip stripR
  by_cases h : ((stripL l).reverse.dropWhile pySpace).reverse = []
  · rw [h]; rfl
  · have hpre : ((stripL l).reverse.dropWhile pySpace).reverse <+: stripL l := by
      have hsuf := dropWhile_isSuf pySpace (stripL l).reverse
      obtain ⟨t, ht⟩ := hsuf
      refine ⟨t.reverse, ?_⟩
      have := congrArg List.reverse ht
      rw [List.reverse_append, List.reverse_reverse] at this
      exact this
    rw [← head?_of_isPre _ _ hpre h]
    exact dropWhile_head_all l

/-- The strip step leaves no trailing whitespace. -/
theorem pyStrip_last (l : List Char) :
    ((pyStrip l).getLast?.all fun c => !pySpace c) = true := by
  unfold pyStrip stripR
  rw [List.getLast?_reverse]
  exact dropWhile_head_all (stripL l).reverse

theorem stripL_id (l : List Char)
    (h : (l.head?.all fun c => !pySpace c) = true) : stripL l = l := by
  cases l with
  | nil => rfl
  | cons a t =>
    simp only [List.head?_cons, Option.all_some] at h
    have : pySpace a = false := by
      cases hp : pySpace a
      · rfl
      · rw [hp] at h; simp at h
    simp [stripL, List.dropWhile_cons, this]

theorem stripR_id (l : List Char)
    (hg : (l.getLast?.all fun c => !pySpace c) = true) : stripR l = l := by
  unfold stripR
  have h : (l.reverse.head?.all fun c => !pySpace c) = true := by
    rw [List.head?_reverse]; exact hg
  have hh : l.reverse.dropWhile pySpace = l.reverse := by
    cases hl : l.reverse with
    | nil => rfl
    | cons a t =>
      rw [hl] at h
      simp only [List.head?_cons, Option.all_some] at h
      have : pySpace a = false := by
        cases hp : pySpace a
        · rfl
        · rw [hp] at h; simp at h
      simp [List.dropWhile_cons, this]
  rw [hh, List.reverse_reverse]

/-- The output of collapseWS on a stripped list has a non-whitespace head. -/
theorem cleanCore_head (l : List Char) :
    ((collapseWS (pyStrip l)).head?.all fun c => !pySpace c) = true := by
  unfold collapseWS
  rw [collapseGo_false_head]
  have h := pyStrip_head l
  cases hd : (pyStrip l).head? with
  | none => simp
  | some c =>
    rw [hd] at h
    simp only [Option.all_some] at h
    have : pySpace c = false := by
      cases hp : pySpace c
      · rfl
      · rw [hp] at h; simp at h
    simp [this]

/-- C10: clean_text is total on string-or-None input and returns a whitespace
normal form: for every input s (including none) the result has no leading or
trailing whitespace and no two consecutive whitespace characters,
clean_text none = "", and clean_text is idempotent. -/
theorem c10_clean_text_normal_form :
    clean_text none = "" ∧
    ∀ s : Option String,
      (((clean_text s).toList.head?.all fun c => !pySpace c) = true) ∧
      (((clean_text s).toList.getLast?.all fun c => !pySpace c) = true) ∧
      List.Chain' (fun a c => ¬(pySpace a = true ∧ pySpace c = true))
        (clean_text s).toList ∧
      clean_text (some (clean_text s)) = clean_text s := by
  refine ⟨rfl, fun s => ?_⟩
  have htl : (clean_text s).toList = collapseWS (pyStrip (s.getD "").toList) := rfl
  have hhead := cleanCore_head (s.getD "").toList
  have hlast := collapseGo_last (pyStrip (s.getD "").toList) false
    (pyStrip_last (s.getD "").toList)
  have hchain := collapseGo_chain (pyStrip (s.getD "").toList) false
  refine ⟨htl ▸ hhead, htl ▸ hlast, htl ▸ hchain, ?_⟩
  -- idempotence: the output is a fixed point of strip and of the substitution
  have hfix : pyStrip (clean_text s).toList = (clean_text s).toList := by
    unfold pyStrip
    rw [stripL_id _ (htl ▸ hhead), stripR_id _ (htl ▸ hlast)]
  show String.mk (collapseWS (pyStrip (clean_text s).toList)) = clean_text s
  rw [hfix]
  unfold collapseWS
  rw [collapseGo_id (clean_text s).toList (htl ▸ hchain)
    (htl ▸ collapseGo_spaces (pyStrip (s.getD "").toList) false)]
  cases hcs : clean_text s
  rfl

/-! ## A model of parsed JSON / Python values

The scrapers handle values deserialized from JSON (requests' r.json(),
Playwright's evaluate). JValue models them; truthy models Python truthiness
(None, False, 0, "", [] and \x7b\x7d are falsy). -/

inductive JValue where
  | null
  | bool (b : Bool)
  | num (n : Int)
  | str (s : String)
  | arr (xs : List JValue)
  | obj (kvs : List (String × JValue))

/-- Python exceptions that the script can raise. -/
inductive PyErr where
  | attrError | typeError | httpError | netError | navError
deriving DecidableEq

def truthy : JValue → Bool
  | .null => false
  | .bool b => b
  | .num n => n != 0
  | .str s => s != ""
  | .arr xs => !xs.isEmpty
  | .obj kvs => !kvs.isEmpty

/-- Python `a or b`: the first operand when truthy, otherwise the second. -/
def pyOr (a b : JValue) : JValue := if truthy a then a else b

/-- clean_text applied to an arbitrary deserialized value, as the script does:
`(s or "")` yields "" for any falsy value, and `.strip()` raises
AttributeError on a truthy non-string. -/
def clean_text_py (v : JValue) : Except PyErr String :=
  if truthy v then
    match v with
    | .str s => .ok (clean_text (some s))
    | _ => .error .attrError
  else .ok ""

/-- A normalized job record: the five-field dict every scraper emits.
url is kept as a JValue because the Greenhouse scraper stores the raw
absolute_url/url field. -/
structure Record where
  source : String
  company : String
  title : String
  location : String
  url : JValue

/-- The record dict as Python builds it, in the literal's key order. -/
def Record.toPairs (r : Record) : List (String × JValue) :=
  [("source", .str r.source), ("company", .str r.company),
   ("title", .str r.title), ("location", .str r.location), ("url", r.url)]

/-! ## Airbnb (Greenhouse): the two definitions of scrape_airbnb_greenhouse
(src/scrape.py lines 24-41 and 365-385)

Both iterate data.get("jobs", []) and build the same record shape; they
differ only in how the location name is extracted. The shared tail
(title/url extraction followed by the two clean_text calls, in source
order) is jobCont. -/

/-- The part both loop bodies share once loc is computed: title and url
extraction, then the dict literal whose construction calls
clean_text(title) before clean_text(loc). j.get on a non-dict job raises
AttributeError, handled by the callers. -/
def jobCont (kvs : List (String × JValue)) (loc : JValue) : Except PyErr Record :=
  let title := (kvs.lookup "title").getD (.str "")
  let jobUrl := pyOr (pyOr ((kvs.lookup "absolute_url").getD .null)
    ((kvs.lookup "url").getD .null)) (.str "")
  match clean_text_py title with
  | .error e => .error e
  | .ok t =>
    match clean_text_py loc with
    | .error e => .error e
    | .ok lo => .ok ⟨"greenhouse", "Airbnb", t, lo, jobUrl⟩

/-- Loop body of the first definition (line 32):
loc = j.get("location", \x7b\x7d).get("name", "") if
isinstance(j.get("location"), dict) else "". Never raises on the loc
computation. -/
def greenhouseJobV1 (j : JValue) : Except PyErr Record :=
  match j with
  | .obj kvs =>
    jobCont kvs (match (kvs.lookup "location").getD .null with
      | .obj kvs2 => (kvs2.lookup "name").getD (.str "")
      | _ => .str "")
  | _ => .error .attrError

/-- Loop body of the second definition (lines 374-376):
loc = ""; if j.get("location"): loc = j["location"].get("name", "") or "".
The .get call raises AttributeError when the location field is truthy but
not a dict. -/
def greenhouseJobV2 (j : JValue) : Except PyErr Record :=
  match j with
  | .obj kvs =>
    match (if truthy ((kvs.lookup "location").getD .null) then
             (match (kvs.lookup "location").getD .null with
              | .obj kvs2 => Except.ok (pyOr ((kvs2.lookup "name").getD (.str "")) (.str ""))
              | _ => Except.error PyErr.attrError)
           else Except.ok (JValue.str "")) with
    | .error e => .error e
    | .ok loc => jobCont kvs loc
  | _ => .error .attrError

/-- Sequential processing of the jobs list; the first exception aborts the
run (out is never saved), later jobs are not reached. -/
def exMapM (f : JValue → Except PyErr Record) : List JValue → Except PyErr (List Record)
  | [] => .ok []
  | j :: js =>
    match f j with
    | .error e => .error e
    | .ok r =>
      match exMapM f js with
      | .error e => .error e
      | .ok rs => .ok (r :: rs)

/-- data.get("jobs", []) followed by the for-loop's demand that it be
iterable. Python would also iterate a string or a dict, but on those
element types both loop bodies raise the same AttributeError at j.get,
so the two definitions cannot be distinguished there. -/
def greenhouse_jobs_of (data : JValue) : Except PyErr (List JValue) :=
  match data with
  | .obj kvs =>
    match (kvs.lookup "jobs").getD (.arr []) with
    | .arr xs => .ok xs
    | _ => .error .typeError
  | _ => .error .attrError

/-- First definition of scrape_airbnb_greenhouse (lines 24-41), from the
parsed response body to the records written to airbnb.json. -/
def scrape_airbnb_greenhouse_v1 (data : JValue) : Except PyErr (List Record) :=
  match greenhouse_jobs_of data with
  | .error e => .error e
  | .ok js => exMapM greenhouseJobV1 js

/-- Second definition of scrape_airbnb_greenhouse (lines 365-385). -/
def scrape_airbnb_greenhouse_v2 (data : JValue) : Except PyErr (List Record) :=
  match greenhouse_jobs_of data with
  | .error e => .error e
  | .ok js => exMapM greenhouseJobV2 js

/-- A job whose location field is absent, falsy, or a dict; on these the
two loop bodies agree. -/
def locBenign (j : JValue) : Bool :=
  match j with
  | .obj kvs =>
    match kvs.lookup "location" with
    | some (.obj _) => true
    | some v => !truthy v
    | none => true
  | _ => true

/-- Every job of the response is locBenign (vacuously true when the jobs
list itself cannot be extracted, where both definitions fail alike). -/
def benignResp (data : JValue) : Bool :=
  match greenhouse_jobs_of data with
  | .ok js => js.all locBenign
  | .error _ => true

theorem clean_or_empty (x : JValue) :
    clean_text_py (pyOr x (.str "")) = clean_text_py x := by
  unfold pyOr
  by_cases h : truthy x = true
  · rw [if_pos h]
  · rw [if_neg h]
    unfold clean_text_py
    rw [if_neg h]
    rfl

theorem jobCont_or_empty (kvs : List (String × JValue)) (x : JValue) :
    jobCont kvs (pyOr x (.str "")) = jobCont kvs x := by
  unfold jobCont
  rw [clean_or_empty]

theorem greenhouseJob_eq (j : JValue) (h : locBenign j = true) :
    greenhouseJobV1 j = greenhouseJobV2 j := by
  cases j with
  | obj kvs =>
    simp only [greenhouseJobV1, greenhouseJobV2]
    simp only [locBenign] at h
    cases hl : kvs.lookup "location" with
    | none => simp [hl, truthy]
    | some v =>
      rw [hl] at h
      cases v with
      | obj kvs2 =>
        cases kvs2 with
        | nil => simp [hl, truthy]
        | cons p ps =>
          simp only [hl, Option.getD_some, truthy, List.isEmpty_cons,
            Bool.not_false, if_pos]
          rw [jobCont_or_empty]
      | null => simp [hl, truthy]
      | bool b =>
        simp only at h
        have hb : b = false := by
          cases b
          · rfl
          · simp [truthy] at h
        subst hb
        simp [hl, truthy]
      | num n =>
        simp only at h
        have hn : n = 0 := by
          by_cases h0 : n = 0
          · exact h0
          · simp [truthy, h0] at h
        subst hn
        simp [hl, truthy]
      | str s =>
        simp only at h
        have hs : s = "" := by
          by_cases h0 : s = ""
          · exact h0
          · simp [truthy, h0] at h
        subst hs
        simp [hl, truthy]
      | arr xs =>
        simp only at h
        have hx : xs = [] := by
          cases xs
          · rfl
          · simp [truthy] at h
        subst hx
        simp [hl, truthy]
  | null => rfl
  | bool b => rfl
  | num n => rfl
  | str s => rfl
  | arr xs => rfl

theorem exMapM_congr (f g : JValue → Except PyErr Record) (js : List JValue)
    (h : ∀ j ∈ js, f j = g j) : exMapM f js = exMapM g js := by
  induction js with
  | nil => rfl
  | cons j js ih =>
    unfold exMapM
    rw [h j (List.mem_cons_self j js), ih (fun x hx => h x (List.mem_cons_of_mem j hx))]

/-- A response whose single job has a truthy non-dict location field. -/
def c8bad : JValue :=
  .obj [("jobs", .arr [.obj [("title", .str "Engineer"),
    ("location", .str "NYC"), ("absolute_url", .str "https://x/1")]])]

/-- C8 counterexample: on a job whose location is the (non-dict) string
"NYC", the first definition succeeds with an empty location while the
second raises AttributeError at j["location"].get, so the two definitions
are not equivalent and the second does fail on a non-dict location. -/
theorem c8_counterexample :
    scrape_airbnb_greenhouse_v1 c8bad =
      Except.ok [⟨"greenhouse", "Airbnb", "Engineer", "", JValue.str "https://x/1"⟩] ∧
    scrape_airbnb_greenhouse_v2 c8bad = Except.error PyErr.attrError :=
  ⟨rfl, rfl⟩

/-- C8 (amended): the two definitions of scrape_airbnb_greenhouse agree on
every JSON response body in which each job's "location" field is absent,
falsy (e.g. null) or a dict (including a dict with a null "name"); when
some job has a truthy non-dict location, the second definition raises
AttributeError while the first treats the location as empty. -/
theorem c8_greenhouse_equiv (data : JValue) (h : benignResp data = true) :
    scrape_airbnb_greenhouse_v1 data = scrape_airbnb_greenhouse_v2 data := by
  unfold scrape_airbnb_greenhouse_v1 scrape_airbnb_greenhouse_v2
  unfold benignResp at h
  cases hj : greenhouse_jobs_of data with
  | error e => rfl
  | ok js =>
    rw [hj] at h
    refine exMapM_congr _ _ js (fun j hjm => greenhouseJob_eq j ?_)
    rw [List.all_eq_true] at h
    exact h j hjm

/-- A response exercising the benign location shapes: absent, null, empty
dict, dict with null name, dict with a real name. -/
def c8good : JValue :=
  .obj [("jobs", .arr
    [.obj [("title", .str " A  B "), ("location", .obj [("name", .null)])],
     .obj [("title", .str "C")],
     .obj [("title", .str "D"), ("location", .null)],
     .obj [("title", .str "E"), ("location", .obj [])],
     .obj [("title", .str "F"), ("location", .obj [("name", .str " X  Y ")]),
       ("url", .str "u")]])]

theorem c8_greenhouse_equiv_witness :
    benignResp c8good = true ∧
      scrape_airbnb_greenhouse_v1 c8good = scrape_airbnb_greenhouse_v2 c8good :=
  ⟨rfl, c8_greenhouse_equiv c8good rfl⟩

/-! ## Shared list machinery for the stateful scrapers -/

/-- Insertion-order de-duplication: JS `[...new Set(xs)]` and Python
`list(dict.fromkeys(xs))` both keep the first occurrence of each element. -/
def dedupGo (seen : List String) : List String → List String
  | [] => []
  | a :: l => if a ∈ seen then dedupGo seen l else a :: dedupGo (a :: seen) l

def dedupF (l : List String) : List String := dedupGo [] l

/-- seen.add(u) on a set modelled as an insertion-ordered duplicate-free
list. -/
def insertSeen (seen : List String) (u : String) : List String :=
  if u ∈ seen then seen else seen ++ [u]

/-- for u in links: seen.add(u). -/
def addAll (seen links : List String) : List String := links.foldl insertSeen seen

theorem insertSeen_nodup (seen : List String) (u : String)
    (h : seen.Nodup) : (insertSeen seen u).Nodup := by
  unfold insertSeen
  by_cases hm : u ∈ seen
  · rw [if_pos hm]; exact h
  · rw [if_neg hm]
    rw [List.nodup_append]
    exact ⟨h, List.nodup_singleton u, by simpa using hm⟩

theorem mem_insertSeen (seen : List String) (u x : String) :
    x ∈ insertSeen seen u ↔ x ∈ seen ∨ x = u := by
  unfold insertSeen
  by_cases hm : u ∈ seen
  · rw [if_pos hm]
    constructor
    · exact Or.inl
    · rintro (h | h)
      · exact h
      · rw [h]; exact hm
  · rw [if_neg hm]
    simp

theorem addAll_nodup (links : List String) (seen : List String)
    (h : seen.Nodup) : (addAll seen links).Nodup := by
  induction links generalizing seen with
  | nil => exact h
  | cons a l ih => exact ih (insertSeen seen a) (insertSeen_nodup seen a h)

theorem mem_addAll (links : List String) (seen : List String) (x : String) :
    x ∈ addAll seen links ↔ x ∈ seen ∨ x ∈ links := by
  induction links generalizing seen with
  | nil => simp [addAll]
  | cons a l ih =>
    show x ∈ addAll (insertSeen seen a) l ↔ _
    rw [ih (insertSeen seen a), mem_insertSeen]
    constructor
    · rintro ((h | h) | h)
      · exact Or.inl h
      · exact Or.inr (by rw [h]; exact List.mem_cons_self a l)
      · exact Or.inr (List.mem_cons_of_mem a h)
    · rintro (h | h)
      · exact Or.inl (Or.inl h)
      · rcases List.mem_cons.mp h with h1 | h2
        · exact Or.inl (Or.inr h1)
        · exact Or.inr h2

theorem dedupGo_nodup (l : List String) (seen : List String) :
    (dedupGo seen l).Nodup ∧ ∀ x ∈ dedupGo seen l, x ∉ seen := by
  induction l generalizing seen with
  | nil => exact ⟨List.nodup_nil, by intro x hx; cases hx⟩
  | cons a l ih =>
    unfold dedupGo
    by_cases hm : a ∈ seen
    · rw [if_pos hm]; exact ih seen
    · rw [if_neg hm]
      obtain ⟨hnd, hns⟩ := ih (a :: seen)
      constructor
      · rw [List.nodup_cons]
        refine ⟨?_, hnd⟩
        intro hmem
        exact hns a hmem (List.mem_cons_self a seen)
      · intro x hx
        rcases List.mem_cons.mp hx with h1 | h2
        · rw [h1]; exact hm
        · intro hxs
          exact hns x h2 (List.mem_cons_of_mem a hxs)

theorem dedupF_nodup (l : List String) : (dedupF l).Nodup :=
  (dedupGo_nodup l []).1

/-- The per-selector location loop shared by the Playwright scrapers: the
first selector whose element exists and whose text cleans to a non-empty
string wins; missing elements, raised exceptions and empty texts fall
through to the next selector. Each list entry is one selector's outcome
(none: absent or raised; some t: text content, with null already turned
into "" by `or ""`). -/
def firstLoc : List (Option String) → String
  | [] => ""
  | none :: rest => firstLoc rest
  | some t :: rest =>
    let c := clean_text (some t)
    if c.isEmpty then firstLoc rest else c

/-- What a job detail page yields to the Playwright scrapers: the h1 text
(none: locator raised or timed out, so title stays "") and the
per-selector location outcomes. -/
structure DetailView where
  h1 : Option String
  locTexts : List (Option String)

/-! ## Liberty Mutual (iCIMS): scrape_liberty_icims
(src/scrape.py lines 44-110, identical copy at 388-454) -/

/-- What an iCIMS job detail page yields: the h1 text (if the selector
matches), the og:title content (sitemap branch only) and the text of the
first matching location element. -/
structure IDoc where
  h1 : Option String
  og : Option String
  loc : Option String

/-- The outside world as scrape_liberty_icims interacts with it.
sitemap: none = get raised (caught); some (ok, links) = a response with
its ok flag and the links the `<loc>` regex extracts from its text.
detailA/detailB: none = get raised (caught); some none = response not ok;
some (some d) = the parsed detail page. search: the paginated fallback's
list pages, where none = get raised and that exception PROPAGATES (the
branch-B get is not inside any try). -/
structure IWorld where
  sitemap : Option (Bool × List String)
  detailA : String → Option (Option IDoc)
  search : Nat → Option (Bool × List String)
  detailB : String → Option (Option IDoc)

/-- Branch A's per-link record: title from h1, else og:title, else the
"(Job)" placeholder; location from the first matching selector. -/
def iRecordA (d : IDoc) (href : String) : Record :=
  let t0 := clean_text (some (d.h1.getD ""))
  let t1 := if t0.isEmpty then
      (match d.og with
       | some c => clean_text (some c)
       | none => "")
    else t0
  { source := "icims", company := "Liberty Mutual",
    title := if t1.isEmpty then "(Job)" else t1,
    location := (match d.loc with
      | some x => clean_text (some x)
      | none => ""),
    url := .str href }

def iVisitA (w : IWorld) (href : String) : Option Record :=
  match w.detailA href with
  | none => none
  | some none => none
  | some (some d) => some (iRecordA d href)

/-- The de-duplicated, capped link list branch A iterates:
list(dict.fromkeys(links))[:200]. -/
def iSitemapLinks (w : IWorld) : List String :=
  match w.sitemap with
  | some (true, links) => (dedupF links).take 200
  | _ => []

/-- Branch A (sitemap): the records accumulated in `out` before the
fallback test `if not out`. A raised or not-ok sitemap fetch leaves out
empty. -/
def iSitemapPass (w : IWorld) : List Record :=
  (iSitemapLinks w).filterMap (iVisitA w)

/-- Branch B's per-link record: no og:title fallback. -/
def iRecordB (d : IDoc) (href : String) : Record :=
  let t0 := clean_text (some (d.h1.getD ""))
  { source := "icims", company := "Liberty Mutual",
    title := if t0.isEmpty then "(Job)" else t0,
    location := (match d.loc with
      | some x => clean_text (some x)
      | none => ""),
    url := .str href }

def iVisitB (w : IWorld) (href : String) : Option Record :=
  match w.detailB href with
  | none => none
  | some none => none
  | some (some d) => some (iRecordB d href)

/-- Branch B (paginated fallback), for pr in range(0, 6): fetch the list
page (a raised get propagates), break when not ok, keep only links not in
seen, break when none are new, otherwise add them to seen and visit each.
Returns (number of list pages fetched, the new links processed per page,
the records or the propagated exception). -/
def iSearchLoop (w : IWorld) : Nat → Nat → List String →
    Nat × List (List String) × Except PyErr (List Record)
  | 0, _, _ => (0, [], .ok [])
  | f + 1, pr, seen =>
    match w.search pr with
    | none => (1, [], .error .netError)
    | some (ok, raw) =>
      if !ok then (1, [], .ok [])
      else
        let links := raw.filter (fun l => !(seen.contains l))
        if links.isEmpty then (1, [], .ok [])
        else
          let recs := links.filterMap (iVisitB w)
          match iSearchLoop w f (pr + 1) (addAll seen links) with
          | (n, pgs, .error e) => (n + 1, links :: pgs, .error e)
          | (n, pgs, .ok rest) => (n + 1, links :: pgs, .ok (recs ++ rest))

/-- scrape_liberty_icims: branch A, then branch B exactly when branch A
produced no records. Returns (list-page fetch count, per-page new links,
the records written to libertymutual.json or the propagated exception). -/
def scrape_liberty_icims (w : IWorld) :
    Nat × List (List String) × Except PyErr (List Record) :=
  let a := iSitemapPass w
  if a.isEmpty then iSearchLoop w 6 0 []
  else (0, [], .ok a)

def icimsFetchCount (w : IWorld) : Nat := (scrape_liberty_icims w).1

def icimsPages (w : IWorld) : List (List String) := (scrape_liberty_icims w).2.1

/-- The records actually written to libertymutual.json ([] when the
exception propagates and the file is never written). -/
def icimsRecords (w : IWorld) : List Record :=
  match (scrape_liberty_icims w).2.2 with
  | .ok r => r
  | .error _ => []

theorem iSearchLoop_pos (w : IWorld) (f pr : Nat) (seen : List String) :
    1 ≤ (iSearchLoop w (f + 1) pr seen).1 := by
  unfold iSearchLoop
  cases hs : w.search pr with
  | none => exact Nat.le_refl 1
  | some p =>
    obtain ⟨ok, raw⟩ := p
    dsimp only
    by_cases hok : (!ok) = true
    · rw [if_pos hok]
    · rw [if_neg hok]
      by_cases he : (raw.filter (fun l => !(seen.contains l))).isEmpty = true
      · rw [if_pos he]
      · rw [if_neg he]
        cases hr : iSearchLoop w f (pr + 1)
            (addAll seen (raw.filter (fun l => !(seen.contains l)))) with
        | mk n rest =>
          obtain ⟨pgs, r⟩ := rest
          cases r with
          | error e => exact Nat.le_add_left 1 n
          | ok rest => exact Nat.le_add_left 1 n

/-- Fetch-count bookkeeping for the paginated fallback: at most `f` pages
are fetched; every fetched page except possibly the last was ok and
yielded new links (and was then processed); the count falls short of the
fuel only when the last fetch was bad. -/
theorem iSearchLoop_count (w : IWorld) (f : Nat) : ∀ (pr : Nat) (seen : List String),
    (iSearchLoop w f pr seen).1 ≤ f ∧
    ((iSearchLoop w f pr seen).1 = (iSearchLoop w f pr seen).2.1.length + 1 ∨
     ((iSearchLoop w f pr seen).1 = (iSearchLoop w f pr seen).2.1.length ∧
      (iSearchLoop w f pr seen).1 = f)) ∧
    ∀ pg ∈ (iSearchLoop w f pr seen).2.1, pg ≠ [] := by
  induction f with
  | zero =>
    intro pr seen
    refine ⟨Nat.le_refl 0, Or.inr ⟨rfl, rfl⟩, ?_⟩
    intro pg hpg; cases hpg
  | succ f ih =>
    intro pr seen
    unfold iSearchLoop
    cases hs : w.search pr with
    | none =>
      refine ⟨Nat.succ_le_succ (Nat.zero_le f), Or.inl rfl, ?_⟩
      intro pg hpg; cases hpg
    | some p =>
      obtain ⟨ok, raw⟩ := p
      dsimp only
      by_cases hok : (!ok) = true
      · rw [if_pos hok]
        refine ⟨Nat.succ_le_succ (Nat.zero_le f), Or.inl rfl, ?_⟩
        intro pg hpg; cases hpg
      · rw [if_neg hok]
        by_cases he : (raw.filter (fun l => !(seen.contains l))).isEmpty = true
        · rw [if_pos he]
          refine ⟨Nat.succ_le_succ (Nat.zero_le f), Or.inl rfl, ?_⟩
          intro pg hpg; cases hpg
        · rw [if_neg he]
          have ihr := ih (pr + 1) (addAll seen (raw.filter (fun l => !(seen.contains l))))
          cases hr : iSearchLoop w f (pr + 1)
              (addAll seen (raw.filter (fun l => !(seen.contains l)))) with
          | mk n rest =>
            obtain ⟨pgs, r⟩ := rest
            rw [hr] at ihr
            obtain ⟨h1, h2, h3⟩ := ihr
            have hne : raw.filter (fun l => !(seen.contains l)) ≠ [] := by
              intro hnil
              rw [hnil] at he
              exact he rfl
            cases r with
            | error e =>
              refine ⟨Nat.succ_le_succ h1, ?_, ?_⟩
              · rcases h2 with h2 | h2
                · exact Or.inl (by simpa using congrArg Nat.succ h2)
                · exact Or.inr ⟨by simpa using congrArg Nat.succ h2.1,
                    by simpa using congrArg Nat.succ h2.2⟩
              · intro pg hpg
                rcases List.mem_cons.mp hpg with h4 | h4
                · rw [h4]; exact hne
                · exact h3 pg h4
            | ok rest =>
              refine ⟨Nat.succ_le_succ h1, ?_, ?_⟩
              · rcases h2 with h2 | h2
                · exact Or.inl (by simpa using congrArg Nat.succ h2)
                · exact Or.inr ⟨by simpa using congrArg Nat.succ h2.1,
                    by simpa using congrArg Nat.succ h2.2⟩
              · intro pg hpg
                rcases List.mem_cons.mp hpg with h4 | h4
                · rw [h4]; exact hne
                · exact h3 pg h4

/-- The new-links pages the fallback processes are pairwise disjoint, and
disjoint from everything already seen. -/
theorem iSearchLoop_disjoint (w : IWorld) (f : Nat) : ∀ (pr : Nat) (seen : List String),
    List.Pairwise (fun p q => ∀ x ∈ p, x ∉ q) (iSearchLoop w f pr seen).2.1 ∧
    ∀ pg ∈ (iSearchLoop w f pr seen).2.1, ∀ x ∈ pg, x ∉ seen := by
  induction f with
  | zero =>
    intro pr seen
    refine ⟨List.Pairwise.nil, ?_⟩
    intro pg hpg; cases hpg
  | succ f ih =>
    intro pr seen
    unfold iSearchLoop
    cases hs : w.search pr with
    | none =>
      refine ⟨List.Pairwise.nil, ?_⟩
      intro pg hpg; cases hpg
    | some p =>
      obtain ⟨ok, raw⟩ := p
      dsimp only
      by_cases hok : (!ok) = true
      · rw [if_pos hok]
        refine ⟨List.Pairwise.nil, ?_⟩
        intro pg hpg; cases hpg
      · rw [if_neg hok]
        by_cases he : (raw.filter (fun l => !(seen.contains l))).isEmpty = true
        · rw [if_pos he]
          refine ⟨List.Pairwise.nil, ?_⟩
          intro pg hpg; cases hpg
        · rw [if_neg he]
          have ihr := ih (pr + 1) (addAll seen (raw.filter (fun l => !(seen.contains l))))
          cases hr : iSearchLoop w f (pr + 1)
              (addAll seen (raw.filter (fun l => !(seen.contains l)))) with
          | mk n rest =>
            obtain ⟨pgs, r⟩ := rest
            rw [hr] at ihr
            obtain ⟨hpw, hsn⟩ := ihr
            have hlinks_seen : ∀ x ∈ raw.filter (fun l => !(seen.contains l)), x ∉ seen := by
              intro x hx
              have hfil := List.of_mem_filter hx
              simpa using hfil
            have hdis : ∀ q ∈ pgs, ∀ x ∈ raw.filter (fun l => !(seen.contains l)), x ∉ q := by
              intro q hq x hx hxq
              have hns := hsn q hq x hxq
              rw [mem_addAll] at hns
              exact hns (Or.inr hx)
            have hpair : List.Pairwise (fun p q => ∀ x ∈ p, x ∉ q)
                ((raw.filter (fun l => !(seen.contains l))) :: pgs) := by
              rw [List.pairwise_cons]
              exact ⟨fun q hq x hx => hdis q hq x hx, hpw⟩
            have hseen2 : ∀ pg ∈ (raw.filter (fun l => !(seen.contains l))) :: pgs,
                ∀ x ∈ pg, x ∉ seen := by
              intro pg hpg x hx
              rcases List.mem_cons.mp hpg with h4 | h4
              · exact hlinks_seen x (h4 ▸ hx)
              · intro hmem
                exact hsn pg h4 x hx (by rw [mem_addAll]; exact Or.inl hmem)
            cases r with
            | error e => exact ⟨hpair, hseen2⟩
            | ok rest => exact ⟨hpair, hseen2⟩

/-- C4: the iCIMS scraper fetches paginated search pages exactly when the
sitemap pass produced no job records. -/
theorem c4_icims_sitemap_primary (w : IWorld) :
    1 ≤ icimsFetchCount w ↔ iSitemapPass w = [] := by
  unfold icimsFetchCount scrape_liberty_icims
  by_cases h : (iSitemapPass w).isEmpty = true
  · rw [if_pos h]
    rw [List.isEmpty_iff] at h
    simp only [h, iff_true]
    exact iSearchLoop_pos w 5 0 []
  · rw [if_neg h]
    rw [List.isEmpty_iff] at h
    simp only [h, iff_false]
    exact Nat.not_succ_le_zero 0

/-! ## Zillow (Workday): scrape_zillow_workday (src/scrape.py lines 166-308)

The scraper's observable actions, in order: navigate to the board page,
wait for a job anchor, collect anchors from the rendered list (with up to
8 "Next" clicks), scroll to force rendering and recollect, call the cxs
JSON endpoint from page context, then visit each collected detail page. -/

inductive ZEvent where
  | gotoBoard
  | waitSel
  | domCollect
  | click
  | scroll
  | cxsApi
  | apiPost (i : Nat)
  | visitDetail (url : String)

/-- Case-insensitive character list of a string (for the re.I regexes). -/
def lowerChars (s : String) : List Char := s.toList.map Char.toLower

def startsWithL : List Char → List Char → Bool
  | [], _ => true
  | _ :: _, [] => false
  | a :: as, b :: bs => a = b && startsWithL as bs

/-- Contiguous containment of the needle in the haystack. -/
def isSubL (nd : List Char) : List Char → Bool
  | [] => nd.isEmpty
  | c :: t => startsWithL nd (c :: t) || isSubL nd t

/-- re.search(r'/(login|apply|search)', h, re.I): the filter dropping
obvious non-detail links (line 195). -/
def zBad (h : String) : Bool :=
  isSubL "/login".toList (lowerChars h) || isSubL "/apply".toList (lowerChars h) ||
    isSubL "/search".toList (lowerChars h)

/-- The outside world as scrape_zillow_workday interacts with it.
domLinks k: the hrefs eval_on_selector_all returns on the k-th
collect_links call. selCount i s / selClickFails i s: whether pagination
selector s (0,1,2 in source order) matches at iteration i and whether its
click raises. apiThrows/apiOk/apiJobs i: the i-th in-page POST to the cxs
endpoint (fetch raises / response ok / the jobPostings array). detail:
none = page.goto raised (swallowed, posting skipped). -/
structure ZWorld where
  boardUrl : String
  gotoBoardFails : Bool
  domLinks : Nat → List String
  selCount : Nat → Nat → Bool
  selClickFails : Nat → Nat → Bool
  apiThrows : Nat → Bool
  apiOk : Nat → Bool
  apiJobs : Nat → List JValue
  detail : String → Option DetailView

/-- collect_links (lines 189-196): Set-dedup in page context, then the
non-detail filter. -/
def zCollect (w : ZWorld) (k : Nat) : List String :=
  (dedupF (w.domLinks k)).filter (fun h => !zBad h)

/-- The inner selector loop of the pagination step (lines 206-219): take
the first selector that matches and whose click does not raise; a raised
click is swallowed and the next selector is tried. -/
def zTrySel (w : ZWorld) (i : Nat) : List Nat → Bool
  | [] => false
  | s :: rest =>
    if w.selCount i s then
      (if w.selClickFails i s then zTrySel w i rest else true)
    else zTrySel w i rest

def zClicked (w : ZWorld) (i : Nat) : Bool := zTrySel w i [0, 1, 2]

/-- The pagination loop (lines 202-222), entered only when the first
collection found links: for _ in range(8): add current links to seen; try
to click a next control, breaking when none clicks; recollect. The links
collected by the 8th iteration's final recollect are dropped with the
loop. Arguments: fuel, iteration index, next collect_links index, current
links, seen. -/
def zPagLoop (w : ZWorld) : Nat → Nat → Nat → List String → List String →
    List ZEvent × List String
  | 0, _, _, _, seen => ([], seen)
  | f + 1, i, ci, links, seen =>
    let seen2 := addAll seen links
    if zClicked w i then
      let (evs, seenF) := zPagLoop w f (i + 1) (ci + 1) (zCollect w ci) seen2
      (ZEvent.click :: ZEvent.domCollect :: evs, seenF)
    else ([], seen2)

/-- The in-page cxs loop (lines 236-259): up to 6 POSTs of limit 50;
stop on a raised fetch (the whole evaluate then raises and is swallowed,
losing all postings), on a not-ok response, or on a short page. -/
def zCxsLoop (w : ZWorld) : Nat → Nat → List ZEvent × Option (List JValue)
  | 0, _ => ([], some [])
  | f + 1, i =>
    if w.apiThrows i then ([ZEvent.apiPost i], none)
    else if !(w.apiOk i) then ([ZEvent.apiPost i], some [])
    else if (w.apiJobs i).length < 50 then ([ZEvent.apiPost i], some (w.apiJobs i))
    else
      let (evs, r) := zCxsLoop w f (i + 1)
      (ZEvent.apiPost i :: evs, r.map (w.apiJobs i ++ ·))

/-- board_url.rstrip("/"). -/
def rstripSlash (s : String) : String :=
  String.mk ((s.toList.reverse.dropWhile (fun c => c = '/')).reverse)

def zJobUrl (boardUrl ep : String) : String :=
  rstripSlash boardUrl ++ "/job/" ++ ep

/-- The Python loop over the returned postings (lines 261-264):
ep = j.get("externalPath") or ""; if ep: seen.add(board_url.rstrip("/") +
"/job/" + ep). A non-dict posting or a truthy non-string externalPath
raises inside the surrounding try, aborting the loop but keeping the
additions made so far. -/
def zAddPaths (b : String) : List JValue → List String → List String
  | [], seen => seen
  | j :: rest, seen =>
    match j with
    | .obj kvs =>
      match (kvs.lookup "externalPath").getD .null with
      | .str s =>
        if s.isEmpty then zAddPaths b rest seen
        else zAddPaths b rest (insertSeen seen (zJobUrl b s))
      | v => if truthy v then seen else zAddPaths b rest seen
    | _ => seen

/-- Link collection through the DOM tier: the initial collect_links call
and, when it found links, the pagination loop (lines 198-222). -/
def zSeenAfterDom (w : ZWorld) : List ZEvent × List String :=
  let links0 := zCollect w 0
  if links0.isEmpty then ([ZEvent.domCollect], [])
  else
    let (evs, seen) := zPagLoop w 8 0 1 links0 []
    (ZEvent.domCollect :: evs, seen)

/-- The scroll tier (lines 225-231), taken only when seen is still empty:
wheel 10 times, recollect (the second collect_links call), add to seen. -/
def zSeenAfterScroll (w : ZWorld) : List ZEvent × List String :=
  let (evs, seen) := zSeenAfterDom w
  if seen.isEmpty then
    (evs ++ [ZEvent.scroll, ZEvent.domCollect], addAll seen (zCollect w 1))
  else (evs, seen)

/-- The cxs API tier (lines 233-266), taken only when seen is still
empty: evaluate the in-page fetch loop; on success add a detail URL per
posting with a non-empty externalPath. -/
def zSeenAfterApi (w : ZWorld) : List ZEvent × List String :=
  let (evs, seen) := zSeenAfterScroll w
  if seen.isEmpty then
    let (aevs, r) := zCxsLoop w 6 0
    match r with
    | none => (evs ++ ZEvent.cxsApi :: aevs, seen)
    | some postings => (evs ++ ZEvent.cxsApi :: aevs, zAddPaths w.boardUrl postings seen)
  else (evs, seen)

/-- Visiting one detail page (lines 270-299): a raised goto is swallowed
and no record is emitted; the title is the cleaned h1 text (raised or
timed-out h1 leaves it ""), the location the first selector that yields
non-empty text; a posting whose title cleans to "" is dropped. -/
def zVisit (w : ZWorld) (href : String) : Option Record :=
  match w.detail href with
  | none => none
  | some d =>
    let title := clean_text (some (d.h1.getD ""))
    if title.isEmpty then none
    else some { source := "workday", company := "Zillow", title := title,
                location := firstLoc d.locTexts, url := .str href }

/-- scrape_zillow_workday: the trace of observable actions and either the
records written to zillow.json or the exception that propagates. The
initial page.goto sits in a try/finally with no except, so its failure
propagates and zillow.json is never written; all later failures are
swallowed per posting / per click / around the evaluate call. -/
def scrape_zillow_workday (w : ZWorld) : List ZEvent × Except PyErr (List Record) :=
  if w.gotoBoardFails then ([ZEvent.gotoBoard], .error .navError)
  else
    let (evs, seen) := zSeenAfterApi w
    let hrefs := seen.take 120
    (ZEvent.gotoBoard :: ZEvent.waitSel :: evs ++ hrefs.map ZEvent.visitDetail,
      .ok (hrefs.filterMap (zVisit w)))

def zTrace (w : ZWorld) : List ZEvent := (scrape_zillow_workday w).1

/-- The records written to zillow.json ([] when the exception propagates
and the file is never written). -/
def zRecs (w : ZWorld) : List Record :=
  match (scrape_zillow_workday w).2 with
  | .ok r => r
  | .error _ => []

def isClickEv : ZEvent → Bool
  | .click => true
  | _ => false

def isApiPostEv : ZEvent → Bool
  | .apiPost _ => true
  | _ => false

def isApiCallEv : ZEvent → Bool
  | .cxsApi => true
  | _ => false

def isDomCollectEv : ZEvent → Bool
  | .domCollect => true
  | _ => false

def visitUrlOf : ZEvent → Option String
  | .visitDetail u => some u
  | _ => none

/-- The detail URLs the scraper navigates to, in order. -/
def zVisitedUrls (w : ZWorld) : List String := (zTrace w).filterMap visitUrlOf

/-- The API tier is attempted before the first DOM collection. -/
def apiBeforeDom (t : List ZEvent) : Bool :=
  (t.takeWhile (fun e => !isDomCollectEv e)).any isApiCallEv

/-- [s, s+1, ..., s+n-1]. -/
def iotaFrom : Nat → Nat → List Nat
  | _, 0 => []
  | s, n + 1 => s :: iotaFrom (s + 1) n

/-- The i-th cxs POST lets the loop continue: fetch did not raise, the
response was ok and the page was full (50 postings). -/
def apiGood (w : ZWorld) (i : Nat) : Bool :=
  !w.apiThrows i && w.apiOk i && decide (50 ≤ (w.apiJobs i).length)

theorem zPagLoop_clicks (w : ZWorld) (f : Nat) : ∀ (i ci : Nat) (links seen : List String),
    (zPagLoop w f i ci links seen).1.countP isClickEv =
      (List.takeWhile (fun j => zClicked w j) (iotaFrom i f)).length := by
  induction f with
  | zero => intro i ci links seen; rfl
  | succ f ih =>
    intro i ci links seen
    unfold zPagLoop
    dsimp only
    by_cases hc : zClicked w i = true
    · rw [if_pos hc]
      cases hr : zPagLoop w f (i + 1) (ci + 1) (zCollect w ci) (addAll seen links) with
      | mk evs seenF =>
        have := ih (i + 1) (ci + 1) (zCollect w ci) (addAll seen links)
        rw [hr] at this
        show (ZEvent.click :: ZEvent.domCollect :: evs).countP isClickEv = _
        rw [show iotaFrom i (f + 1) = i :: iotaFrom (i + 1) f from rfl]
        rw [List.takeWhile_cons, if_pos hc]
        simp only [List.countP_cons, List.length_cons]
        rw [this]
        simp [isClickEv]
    · rw [if_neg hc]
      show ([] : List ZEvent).countP isClickEv = _
      rw [show iotaFrom i (f + 1) = i :: iotaFrom (i + 1) f from rfl]
      rw [List.takeWhile_cons, if_neg hc]
      rfl

theorem zPagLoop_events (w : ZWorld) (f : Nat) : ∀ (i ci : Nat) (links seen : List String),
    ((zPagLoop w f i ci links seen).1.countP isApiPostEv = 0) ∧
    ((zPagLoop w f i ci links seen).1.any isApiCallEv = false) ∧
    ((zPagLoop w f i ci links seen).1.filterMap visitUrlOf = []) := by
  induction f with
  | zero => intro i ci links seen; exact ⟨rfl, rfl, rfl⟩
  | succ f ih =>
    intro i ci links seen
    unfold zPagLoop
    dsimp only
    by_cases hc : zClicked w i = true
    · rw [if_pos hc]
      cases hr : zPagLoop w f (i + 1) (ci + 1) (zCollect w ci) (addAll seen links) with
      | mk evs seenF =>
        have := ih (i + 1) (ci + 1) (zCollect w ci) (addAll seen links)
        rw [hr] at this
        obtain ⟨h1, h2, h3⟩ := this
        refine ⟨?_, ?_, ?_⟩
        · show (ZEvent.click :: ZEvent.domCollect :: evs).countP isApiPostEv = 0
          simp only [List.countP_cons, h1]
          rfl
        · show (ZEvent.click :: ZEvent.domCollect :: evs).any isApiCallEv = false
          simp only [List.any_cons, h2]
          rfl
        · show (ZEvent.click :: ZEvent.domCollect :: evs).filterMap visitUrlOf = []
          simp only [List.filterMap_cons, h3]
          rfl
    · rw [if_neg hc]
      exact ⟨rfl, rfl, rfl⟩

theorem zPagLoop_nodup (w : ZWorld) (f : Nat) : ∀ (i ci : Nat) (links seen : List String),
    seen.Nodup → (zPagLoop w f i ci links seen).2.Nodup := by
  induction f with
  | zero => intro i ci links seen h; exact h
  | succ f ih =>
    intro i ci links seen h
    unfold zPagLoop
    dsimp only
    by_cases hc : zClicked w i = true
    · rw [if_pos hc]
      cases hr : zPagLoop w f (i + 1) (ci + 1) (zCollect w ci) (addAll seen links) with
      | mk evs seenF =>
        have := ih (i + 1) (ci + 1) (zCollect w ci) (addAll seen links)
          (addAll_nodup links seen h)
        rw [hr] at this
        exact this
    · rw [if_neg hc]
      exact addAll_nodup links seen h

theorem zCxsLoop_count (w : ZWorld) (f : Nat) : ∀ i : Nat,
    (zCxsLoop w f i).1.countP isApiPostEv =
      min f ((List.takeWhile (apiGood w) (iotaFrom i f)).length + 1) := by
  induction f with
  | zero => intro i; rfl
  | succ f ih =>
    intro i
    unfold zCxsLoop
    rw [show iotaFrom i (f + 1) = i :: iotaFrom (i + 1) f from rfl]
    by_cases ht : w.apiThrows i = true
    · rw [if_pos ht]
      have hg : apiGood w i = false := by simp [apiGood, ht]
      rw [List.takeWhile_cons, if_neg (by rw [hg]; exact Bool.false_ne_true)]
      show 1 = min (f + 1) 1
      rw [Nat.min_eq_right (Nat.succ_le_succ (Nat.zero_le f))]
    · rw [if_neg ht]
      have ht2 : w.apiThrows i = false := by
        cases htk : w.apiThrows i
        · rfl
        · rw [htk] at ht; exact absurd rfl ht
      by_cases ho : (!(w.apiOk i)) = true
      · rw [if_pos ho]
        have ho2 : w.apiOk i = false := by
          cases hok : w.apiOk i
          · rfl
          · rw [hok] at ho; exact absurd ho (by simp)
        have hg : apiGood w i = false := by simp [apiGood, ht2, ho2]
        rw [List.takeWhile_cons, if_neg (by rw [hg]; exact Bool.false_ne_true)]
        show 1 = min (f + 1) 1
        rw [Nat.min_eq_right (Nat.succ_le_succ (Nat.zero_le f))]
      · rw [if_neg ho]
        have ho2 : w.apiOk i = true := by
          cases hok : w.apiOk i
          · rw [hok] at ho; exact absurd rfl ho
          · rfl
        by_cases hl : (w.apiJobs i).length < 50
        · rw [if_pos hl]
          have hg : apiGood w i = false := by
            simp [apiGood, ht2, ho2, Nat.not_le.mpr hl]
          rw [List.takeWhile_cons, if_neg (by rw [hg]; exact Bool.false_ne_true)]
          show 1 = min (f + 1) 1
          rw [Nat.min_eq_right (Nat.succ_le_succ (Nat.zero_le f))]
        · rw [if_neg hl]
          have hg : apiGood w i = true := by
            simp [apiGood, ht2, ho2, Nat.le_of_not_lt hl]
          cases hr : zCxsLoop w f (i + 1) with
          | mk evs r =>
            have hih := ih (i + 1)
            rw [hr] at hih
            show (ZEvent.apiPost i :: evs).countP isApiPostEv = _
            rw [List.takeWhile_cons, if_pos (by rw [hg])]
            simp only [List.countP_cons, List.length_cons]
            rw [hih]
            have hpost : isApiPostEv (ZEvent.apiPost i) = true := rfl
            simp only [hpost, if_pos]
            omega

theorem zCxsLoop_events (w : ZWorld) (f : Nat) : ∀ i : Nat,
    ((zCxsLoop w f i).1.countP isClickEv = 0) ∧
    ((zCxsLoop w f i).1.any isApiCallEv = false) ∧
    ((zCxsLoop w f i).1.filterMap visitUrlOf = []) := by
  induction f with
  | zero => intro i; exact ⟨rfl, rfl, rfl⟩
  | succ f ih =>
    intro i
    unfold zCxsLoop
    by_cases ht : w.apiThrows i = true
    · rw [if_pos ht]; exact ⟨rfl, rfl, rfl⟩
    · rw [if_neg ht]
      by_cases ho : (!(w.apiOk i)) = true
      · rw [if_pos ho]; exact ⟨rfl, rfl, rfl⟩
      · rw [if_neg ho]
        by_cases hl : (w.apiJobs i).length < 50
        · rw [if_pos hl]; exact ⟨rfl, rfl, rfl⟩
        · rw [if_neg hl]
          cases hr : zCxsLoop w f (i + 1) with
          | mk evs r =>
            have hih := ih (i + 1)
            rw [hr] at hih
            obtain ⟨h1, h2, h3⟩ := hih
            refine ⟨?_, ?_, ?_⟩
            · show (ZEvent.apiPost i :: evs).countP isClickEv = 0
              simp only [List.countP_cons, h1]
              rfl
            · show (ZEvent.apiPost i :: evs).any isApiCallEv = false
              simp only [List.any_cons, h2]
              rfl
            · show (ZEvent.apiPost i :: evs).filterMap visitUrlOf = []
              simp only [List.filterMap_cons, h3]
              rfl

theorem zAddPaths_nodup (b : String) (ps : List JValue) : ∀ seen : List String,
    seen.Nodup → (zAddPaths b ps seen).Nodup := by
  induction ps with
  | nil => intro seen h; exact h
  | cons j rest ih =>
    intro seen h
    unfold zAddPaths
    repeat' split
    all_goals first
      | exact h
      | exact ih _ h
      | exact ih _ (insertSeen_nodup _ _ h)

theorem zSeenAfterDom_spec (w : ZWorld) :
    (∃ rest, (zSeenAfterDom w).1 = ZEvent.domCollect :: rest) ∧
    (zSeenAfterDom w).1.countP isApiPostEv = 0 ∧
    (zSeenAfterDom w).1.any isApiCallEv = false ∧
    (zSeenAfterDom w).1.filterMap visitUrlOf = [] ∧
    (zSeenAfterDom w).1.countP isClickEv =
      (if (zCollect w 0).isEmpty then 0
       else (List.takeWhile (fun j => zClicked w j) (iotaFrom 0 8)).length) ∧
    (zSeenAfterDom w).2.Nodup := by
  unfold zSeenAfterDom
  dsimp only
  by_cases h0 : (zCollect w 0).isEmpty = true
  · rw [if_pos h0, if_pos h0]
    exact ⟨⟨[], rfl⟩, rfl, rfl, rfl, rfl, List.nodup_nil⟩
  · rw [if_neg h0, if_neg h0]
    cases hp : zPagLoop w 8 0 1 (zCollect w 0) [] with
    | mk evs seen =>
      obtain ⟨g1, g2, g3⟩ := zPagLoop_events w 8 0 1 (zCollect w 0) []
      have g4 := zPagLoop_clicks w 8 0 1 (zCollect w 0) []
      have g5 := zPagLoop_nodup w 8 0 1 (zCollect w 0) [] List.nodup_nil
      rw [hp] at g1 g2 g3 g4 g5
      refine ⟨⟨evs, rfl⟩, ?_, ?_, ?_, ?_, g5⟩
      · show (ZEvent.domCollect :: evs).countP isApiPostEv = 0
        simp only [List.countP_cons, g1]
        rfl
      · show (ZEvent.domCollect :: evs).any isApiCallEv = false
        simp only [List.any_cons, g2]
        rfl
      · show (ZEvent.domCollect :: evs).filterMap visitUrlOf = []
        simp only [List.filterMap_cons, g3]
        rfl
      · show (ZEvent.domCollect :: evs).countP isClickEv = _
        simp only [List.countP_cons, g4]
        rfl

theorem zSeenAfterScroll_spec (w : ZWorld) :
    (∃ rest, (zSeenAfterScroll w).1 = ZEvent.domCollect :: rest) ∧
    (zSeenAfterScroll w).1.countP isApiPostEv = 0 ∧
    (zSeenAfterScroll w).1.any isApiCallEv = false ∧
    (zSeenAfterScroll w).1.filterMap visitUrlOf = [] ∧
    (zSeenAfterScroll w).1.countP isClickEv = (zSeenAfterDom w).1.countP isClickEv ∧
    (zSeenAfterScroll w).2.Nodup := by
  obtain ⟨⟨rest, hr⟩, h1, h2, h3, h4, h5⟩ := zSeenAfterDom_spec w
  unfold zSeenAfterScroll
  cases hd : zSeenAfterDom w with
  | mk evs seen =>
    rw [hd] at hr h1 h2 h3 h5
    dsimp only at hr h1 h2 h3 h5 ⊢
    by_cases hs : seen.isEmpty = true
    · rw [if_pos hs]
      dsimp only
      refine ⟨⟨rest ++ [ZEvent.scroll, ZEvent.domCollect], ?_⟩, ?_, ?_, ?_, ?_, ?_⟩
      · rw [hr]; rfl
      · rw [List.countP_append, h1]
        rfl
      · rw [List.any_append, h2]
        rfl
      · rw [List.filterMap_append, h3]
        rfl
      · rw [List.countP_append]
        show evs.countP isClickEv + 0 = evs.countP isClickEv
        rw [Nat.add_zero]
      · exact addAll_nodup _ _ h5
    · rw [if_neg hs]
      exact ⟨⟨rest, hr⟩, h1, h2, h3, rfl, h5⟩

theorem zSeenAfterApi_spec (w : ZWorld) :
    (∃ rest, (zSeenAfterApi w).1 = ZEvent.domCollect :: rest) ∧
    (zSeenAfterApi w).1.countP isApiPostEv =
      (if (zSeenAfterScroll w).2.isEmpty then (zCxsLoop w 6 0).1.countP isApiPostEv
       else 0) ∧
    (zSeenAfterApi w).1.any isApiCallEv = (zSeenAfterScroll w).2.isEmpty ∧
    (zSeenAfterApi w).1.filterMap visitUrlOf = [] ∧
    (zSeenAfterApi w).1.countP isClickEv = (zSeenAfterDom w).1.countP isClickEv ∧
    (zSeenAfterApi w).2.Nodup := by
  obtain ⟨⟨rest, hr⟩, h1, h2, h3, h4, h5⟩ := zSeenAfterScroll_spec w
  unfold zSeenAfterApi
  cases hs : zSeenAfterScroll w with
  | mk evs seen =>
    rw [hs] at hr h1 h2 h3 h4 h5
    dsimp only at hr h1 h2 h3 h4 h5 ⊢
    by_cases he : seen.isEmpty = true
    · rw [if_pos he, if_pos he]
      cases hc : zCxsLoop w 6 0 with
      | mk aevs r =>
        obtain ⟨g1, g2, g3⟩ := zCxsLoop_events w 6 0
        rw [hc] at g1 g2 g3
        dsimp only at g1 g2 g3 ⊢
        have k1 : List.countP isApiPostEv (evs ++ ZEvent.cxsApi :: aevs) =
            List.countP isApiPostEv aevs := by
          rw [List.countP_append, h1, List.countP_cons]
          show 0 + (aevs.countP isApiPostEv + 0) = _
          rw [Nat.zero_add, Nat.add_zero]
        have k2 : (evs ++ ZEvent.cxsApi :: aevs).any isApiCallEv = true := by
          rw [List.any_append, h2, List.any_cons]
          rfl
        have k3 : List.filterMap visitUrlOf (evs ++ ZEvent.cxsApi :: aevs) = [] := by
          rw [List.filterMap_append, h3, List.filterMap_cons]
          show aevs.filterMap visitUrlOf = []
          exact g3
        have k4 : List.countP isClickEv (evs ++ ZEvent.cxsApi :: aevs) =
            List.countP isClickEv (zSeenAfterDom w).1 := by
          rw [List.countP_append, List.countP_cons]
          show evs.countP isClickEv + (aevs.countP isClickEv + 0) = _
          rw [g1, Nat.zero_add, Nat.add_zero, h4]
        have khead : ∃ r2, evs ++ ZEvent.cxsApi :: aevs = ZEvent.domCollect :: r2 := by
          refine ⟨rest ++ ZEvent.cxsApi :: aevs, ?_⟩
          rw [hr]; rfl
        cases r with
        | none =>
          dsimp only
          exact ⟨khead, k1, by rw [k2, he], k3, k4, h5⟩
        | some postings =>
          dsimp only
          exact ⟨khead, k1, by rw [k2, he], k3, k4, zAddPaths_nodup _ _ _ h5⟩
    · rw [if_neg he, if_neg he]
      refine ⟨⟨rest, hr⟩, h1, ?_, h3, h4, h5⟩
      rw [h2]
      cases hse : seen.isEmpty
      · rfl
      · rw [hse] at he; exact absurd rfl he

theorem iotaFrom_length (s n : Nat) : (iotaFrom s n).length = n := by
  induction n generalizing s with
  | zero => rfl
  | succ n ih =>
    show (s :: iotaFrom (s + 1) n).length = n + 1
    rw [List.length_cons, ih (s + 1)]

theorem takeWhile_iota_le (p : Nat → Bool) (s n : Nat) :
    (List.takeWhile p (iotaFrom s n)).length ≤ n := by
  induction n generalizing s with
  | zero => exact Nat.le_refl 0
  | succ n ih =>
    rw [show iotaFrom s (n + 1) = s :: iotaFrom (s + 1) n from rfl, List.takeWhile_cons]
    by_cases h : p s = true
    · rw [if_pos h, List.length_cons]
      exact Nat.succ_le_succ (ih (s + 1))
    · rw [if_neg h]
      exact Nat.zero_le _

/-- The detail-visit events carry no clicks, API posts or API calls, and
their visited URLs are exactly the list given to them. -/
theorem map_visit_events (l : List String) :
    ((l.map ZEvent.visitDetail).countP isClickEv = 0) ∧
    ((l.map ZEvent.visitDetail).countP isApiPostEv = 0) ∧
    ((l.map ZEvent.visitDetail).any isApiCallEv = false) ∧
    ((l.map ZEvent.visitDetail).filterMap visitUrlOf = l) := by
  induction l with
  | nil => exact ⟨rfl, rfl, rfl, rfl⟩
  | cons a t ih =>
    obtain ⟨h1, h2, h3, h4⟩ := ih
    refine ⟨?_, ?_, ?_, ?_⟩
    · show ((ZEvent.visitDetail a) :: t.map ZEvent.visitDetail).countP isClickEv = 0
      simp only [List.countP_cons, h1]
      rfl
    · show ((ZEvent.visitDetail a) :: t.map ZEvent.visitDetail).countP isApiPostEv = 0
      simp only [List.countP_cons, h2]
      rfl
    · show ((ZEvent.visitDetail a) :: t.map ZEvent.visitDetail).any isApiCallEv = false
      simp only [List.any_cons, h3]
      rfl
    · show ((ZEvent.visitDetail a) :: t.map ZEvent.visitDetail).filterMap visitUrlOf = a :: t
      simp only [List.filterMap_cons, h4]
      rfl

theorem zTrace_fail (w : ZWorld) (h : w.gotoBoardFails = true) :
    zTrace w = [ZEvent.gotoBoard] := by
  unfold zTrace scrape_zillow_workday
  rw [if_pos h]

theorem zTrace_ok (w : ZWorld) (h : w.gotoBoardFails = false) :
    zTrace w = ZEvent.gotoBoard :: ZEvent.waitSel ::
      ((zSeenAfterApi w).1 ++ ((zSeenAfterApi w).2.take 120).map ZEvent.visitDetail) := by
  unfold zTrace scrape_zillow_workday
  rw [if_neg (by rw [h]; exact Bool.false_ne_true)]
  cases ha : zSeenAfterApi w with
  | mk evs seen => rfl

theorem zRecs_fail (w : ZWorld) (h : w.gotoBoardFails = true) : zRecs w = [] := by
  unfold zRecs scrape_zillow_workday
  rw [if_pos h]

theorem zRecs_ok (w : ZWorld) (h : w.gotoBoardFails = false) :
    zRecs w = ((zSeenAfterApi w).2.take 120).filterMap (zVisit w) := by
  unfold zRecs scrape_zillow_workday
  rw [if_neg (by rw [h]; exact Bool.false_ne_true)]

theorem zVisit_some (w : ZWorld) (href : String) (r : Record)
    (h : zVisit w href = some r) :
    r.url = JValue.str href ∧ r.title ≠ "" ∧
      ∃ d, w.detail href = some d ∧ r.title = clean_text (some (d.h1.getD "")) := by
  unfold zVisit at h
  cases hd : w.detail href with
  | none => rw [hd] at h; cases h
  | some d =>
    rw [hd] at h
    dsimp only at h
    by_cases ht : (clean_text (some (d.h1.getD ""))).isEmpty = true
    · rw [if_pos ht] at h; cases h
    · rw [if_neg ht] at h
      injection h with h
      refine ⟨by rw [← h], ?_, ⟨d, rfl, by rw [← h]⟩⟩
      rw [← h]
      intro heq
      apply ht
      rw [String.isEmpty_iff]
      exact heq

theorem zVisit_urls_mem (w : ZWorld) : ∀ (hrefs : List String) (x : JValue),
    x ∈ (hrefs.filterMap (zVisit w)).map Record.url → ∃ b ∈ hrefs, x = JValue.str b := by
  intro hrefs
  induction hrefs with
  | nil => intro x hx; cases hx
  | cons a t ih =>
    intro x hx
    rw [List.filterMap_cons] at hx
    cases hv : zVisit w a with
    | none =>
      rw [hv] at hx
      obtain ⟨b, hb, hxb⟩ := ih x hx
      exact ⟨b, List.mem_cons_of_mem a hb, hxb⟩
    | some r =>
      rw [hv] at hx
      rw [List.map_cons] at hx
      rcases List.mem_cons.mp hx with h1 | h2
      · refine ⟨a, List.mem_cons_self a t, ?_⟩
        rw [h1, (zVisit_some w a r hv).1]
      · obtain ⟨b, hb, hxb⟩ := ih x h2
        exact ⟨b, List.mem_cons_of_mem a hb, hxb⟩

theorem zVisit_urls_nodup (w : ZWorld) : ∀ hrefs : List String, hrefs.Nodup →
    ((hrefs.filterMap (zVisit w)).map Record.url).Nodup := by
  intro hrefs
  induction hrefs with
  | nil => intro _; exact List.nodup_nil
  | cons a t ih =>
    intro hnd
    rw [List.nodup_cons] at hnd
    obtain ⟨hna, hnt⟩ := hnd
    rw [List.filterMap_cons]
    cases hv : zVisit w a with
    | none => exact ih hnt
    | some r =>
      rw [List.map_cons, List.nodup_cons]
      refine ⟨?_, ih hnt⟩
      intro hmem
      obtain ⟨b, hb, hxb⟩ := zVisit_urls_mem w t r.url hmem
      rw [(zVisit_some w a r hv).1] at hxb
      injection hxb with hab
      exact hna (hab ▸ hb)

/-- C3 counterexample world: board navigation raises. -/
def c3w : ZWorld :=
  { boardUrl := "https://zillow.wd5.myworkdayjobs.com/en-US/Zillow_Group_External",
    gotoBoardFails := true, domLinks := fun _ => [], selCount := fun _ _ => false,
    selClickFails := fun _ _ => false, apiThrows := fun _ => false,
    apiOk := fun _ => false, apiJobs := fun _ => [], detail := fun _ => none }

/-- C3 counterexample: when the initial page.goto to the board raises, the
exception propagates out of scrape_zillow_workday (it sits in a try/finally
with no except) and zillow.json is never written, contradicting the claim
that every failure is swallowed and the output file always written. -/
theorem c3_counterexample :
    (scrape_zillow_workday c3w).2 = Except.error PyErr.navError ∧ zRecs c3w = [] :=
  ⟨rfl, rfl⟩

def exceptOk {α : Type} : Except PyErr α → Bool
  | .ok _ => true
  | .error _ => false

/-- C3 (amended): failures while processing individual postings, pagination
clicks, the scroll recollect and the in-page cxs call are all swallowed and
the scrape continues; the one failure that escapes is the initial board
navigation: the scraper propagates an exception (and so never writes
zillow.json) exactly when that navigation fails. -/
theorem c3_zillow_error_containment (w : ZWorld) :
    exceptOk (scrape_zillow_workday w).2 = !w.gotoBoardFails := by
  unfold scrape_zillow_workday
  cases hg : w.gotoBoardFails with
  | true => rw [if_pos rfl]; rfl
  | false =>
    rw [if_neg (by exact Bool.false_ne_true)]
    cases ha : zSeenAfterApi w with
    | mk evs seen => rfl

/-- C2 counterexample world: the board lists one job whose detail page has
a whitespace-only h1 ("no structured title"). -/
def c2w : ZWorld :=
  { boardUrl := "https://z", gotoBoardFails := false,
    domLinks := fun k => if k = 0 then ["https://z/job/sr-data-engineer"] else [],
    selCount := fun _ _ => false, selClickFails := fun _ _ => false,
    apiThrows := fun _ => false, apiOk := fun _ => false, apiJobs := fun _ => [],
    detail := fun u => if u = "https://z/job/sr-data-engineer" then
        some { h1 := some "  ", locTexts := [] }
      else none }

/-- C2 counterexample: the detail page is visited, no structured title can
be extracted (the h1 cleans to ""), and the posting is dropped: no record
is emitted at all, so no title is derived from the URL slug
"sr-data-engineer". -/
theorem c2_counterexample :
    zVisitedUrls c2w = ["https://z/job/sr-data-engineer"] ∧ zRecs c2w = [] :=
  ⟨rfl, rfl⟩

/-- C2 (amended): the scraper emits a record only for detail pages whose
h1 text cleans to a non-empty title, and the emitted title is always that
cleaned h1 text; a page with no extractable title is dropped, there is no
fallback deriving a title from the URL slug. -/
theorem c2_zillow_title_from_h1 (w : ZWorld) :
    List.Forall (fun r => r.title ≠ "" ∧ ∃ href d, r.url = JValue.str href ∧
      w.detail href = some d ∧ r.title = clean_text (some (d.h1.getD ""))) (zRecs w) := by
  cases hg : w.gotoBoardFails with
  | true => rw [zRecs_fail w hg]; trivial
  | false =>
    rw [zRecs_ok w hg]
    generalize ((zSeenAfterApi w).2.take 120) = hrefs
    induction hrefs with
    | nil => trivial
    | cons a t ih =>
      rw [List.filterMap_cons]
      cases hv : zVisit w a with
      | none => exact ih
      | some r =>
        rw [List.forall_cons]
        obtain ⟨h1, h2, d, hd, ht⟩ := zVisit_some w a r hv
        exact ⟨⟨h2, a, d, h1, hd, ht⟩, ih⟩

/-- C1 counterexample world: the DOM never yields links and the cxs API is
reached. -/
def c1w : ZWorld :=
  { boardUrl := "https://z", gotoBoardFails := false, domLinks := fun _ => [],
    selCount := fun _ _ => false, selClickFails := fun _ _ => false,
    apiThrows := fun _ => false, apiOk := fun _ => false, apiJobs := fun _ => [],
    detail := fun _ => none }

/-- C1 counterexample: a run in which the same-origin cxs API call is
attempted, yet it is not attempted before the DOM-based link collection:
every DOM collection precedes it (the claimed order is inverted). -/
theorem c1_counterexample :
    (zTrace c1w).any isApiCallEv = true ∧ apiBeforeDom (zTrace c1w) = false :=
  ⟨rfl, rfl⟩

/-- C1 (amended): the tiers run in the opposite order from the claim: a
DOM link collection always happens first (no API call ever precedes a DOM
collection), the same-origin cxs API call is attempted exactly when the
DOM and scroll tiers collected nothing (and board navigation succeeded),
and a DOM collection happens on every run that gets past the board
navigation. The code has no network-sniffing, iframe/shadow-DOM or
raw-HTML-regex tiers at all. -/
theorem c1_zillow_tier_order (w : ZWorld) :
    apiBeforeDom (zTrace w) = false ∧
    (zTrace w).any isApiCallEv = (!w.gotoBoardFails && (zSeenAfterScroll w).2.isEmpty) ∧
    (zTrace w).any isDomCollectEv = !w.gotoBoardFails := by
  cases hg : w.gotoBoardFails with
  | true =>
    rw [zTrace_fail w hg]
    exact ⟨rfl, rfl, rfl⟩
  | false =>
    rw [zTrace_ok w hg]
    obtain ⟨⟨rest, hr⟩, h1, h2, h3, h4, h5⟩ := zSeenAfterApi_spec w
    refine ⟨?_, ?_, ?_⟩
    · unfold apiBeforeDom
      rw [hr, List.cons_append]
      rw [List.takeWhile_cons, if_pos (by rfl)]
      rw [List.takeWhile_cons, if_pos (by rfl)]
      rw [List.takeWhile_cons, if_neg (by exact Bool.false_ne_true)]
      rfl
    · rw [List.any_cons, List.any_cons, List.any_append, h2,
        (map_visit_events ((zSeenAfterApi w).2.take 120)).2.2.1]
      show (false || (false || ((zSeenAfterScroll w).2.isEmpty || false))) = _
      rw [Bool.false_or, Bool.false_or, Bool.or_false]
      show (zSeenAfterScroll w).2.isEmpty = (true && (zSeenAfterScroll w).2.isEmpty)
      rw [Bool.true_and]
    · rw [List.any_cons, List.any_cons, List.any_append, hr]
      show (false || (false || ((ZEvent.domCollect :: rest).any isDomCollectEv ||
        (((zSeenAfterApi w).2.take 120).map ZEvent.visitDetail).any isDomCollectEv))) = true
      rw [List.any_cons]
      show (false || (false || ((true || rest.any isDomCollectEv) || _))) = true
      rw [Bool.true_or, Bool.false_or, Bool.false_or, Bool.true_or]

/-- C6: hard pagination bounds. The DOM pagination loop clicks "Next" at
most 8 times and the click count is exactly the run of iterations whose
next-control clicked (so it stops at the first iteration where no control
can be clicked); the in-page cxs loop issues at most 6 POSTs, stopping
after the first one that raises, is not ok, or returns fewer than 50
postings; the iCIMS fallback fetches at most 6 search pages, every fetch
but possibly the last was ok and yielded new links, and a count below 6
happens only with such a trailing bad fetch. -/
theorem c6_pagination_bounds (wz : ZWorld) (wi : IWorld) :
    (zTrace wz).countP isClickEv ≤ 8 ∧
    (zTrace wz).countP isClickEv =
      (if wz.gotoBoardFails then 0
       else if (zCollect wz 0).isEmpty then 0
       else (List.takeWhile (fun j => zClicked wz j) (iotaFrom 0 8)).length) ∧
    (zTrace wz).countP isApiPostEv ≤ 6 ∧
    (zTrace wz).countP isApiPostEv =
      (if wz.gotoBoardFails then 0
       else if (zSeenAfterScroll wz).2.isEmpty then
         min 6 ((List.takeWhile (apiGood wz) (iotaFrom 0 6)).length + 1)
       else 0) ∧
    icimsFetchCount wi ≤ 6 ∧
    (icimsFetchCount wi = (icimsPages wi).length + 1 ∨
      (icimsFetchCount wi = (icimsPages wi).length ∧
       icimsFetchCount wi = (if (iSitemapPass wi).isEmpty then 6 else 0))) ∧
    List.Forall (fun pg => pg ≠ []) (icimsPages wi) := by
  have hclick : (zTrace wz).countP isClickEv =
      (if wz.gotoBoardFails then 0
       else if (zCollect wz 0).isEmpty then 0
       else (List.takeWhile (fun j => zClicked wz j) (iotaFrom 0 8)).length) := by
    cases hg : wz.gotoBoardFails with
    | true => rw [zTrace_fail wz hg]; rfl
    | false =>
      rw [zTrace_ok wz hg]
      obtain ⟨_, _, _, _, h4, _⟩ := zSeenAfterApi_spec wz
      obtain ⟨_, _, _, _, d5, _⟩ := zSeenAfterDom_spec wz
      rw [List.countP_cons, List.countP_cons, List.countP_append,
        (map_visit_events ((zSeenAfterApi wz).2.take 120)).1, h4, d5]
      simp [isClickEv]
  have hapi : (zTrace wz).countP isApiPostEv =
      (if wz.gotoBoardFails then 0
       else if (zSeenAfterScroll wz).2.isEmpty then
         min 6 ((List.takeWhile (apiGood wz) (iotaFrom 0 6)).length + 1)
       else 0) := by
    cases hg : wz.gotoBoardFails with
    | true => rw [zTrace_fail wz hg]; rfl
    | false =>
      rw [zTrace_ok wz hg]
      obtain ⟨_, h1, _, _, _, _⟩ := zSeenAfterApi_spec wz
      rw [List.countP_cons, List.countP_cons, List.countP_append,
        (map_visit_events ((zSeenAfterApi wz).2.take 120)).2.1, h1,
        zCxsLoop_count wz 6 0]
      simp [isApiPostEv]
  have hicims := iSearchLoop_count wi 6 0 []
  refine ⟨?_, hclick, ?_, hapi, ?_, ?_, ?_⟩
  · rw [hclick]
    by_cases h1 : wz.gotoBoardFails = true
    · rw [if_pos h1]; exact Nat.zero_le 8
    · rw [if_neg h1]
      by_cases h2 : (zCollect wz 0).isEmpty = true
      · rw [if_pos h2]; exact Nat.zero_le 8
      · rw [if_neg h2]
        exact takeWhile_iota_le _ 0 8
  · rw [hapi]
    by_cases h1 : wz.gotoBoardFails = true
    · rw [if_pos h1]; exact Nat.zero_le 6
    · rw [if_neg h1]
      by_cases h2 : (zSeenAfterScroll wz).2.isEmpty = true
      · rw [if_pos h2]; exact Nat.min_le_left 6 _
      · rw [if_neg h2]; exact Nat.zero_le 6
  · unfold icimsFetchCount scrape_liberty_icims
    by_cases hA : (iSitemapPass wi).isEmpty = true
    · rw [if_pos hA]; exact hicims.1
    · rw [if_neg hA]; exact Nat.zero_le 6
  · unfold icimsFetchCount icimsPages scrape_liberty_icims
    by_cases hA : (iSitemapPass wi).isEmpty = true
    · rw [if_pos hA, if_pos hA]
      exact hicims.2.1
    · rw [if_neg hA, if_neg hA]
      exact Or.inr ⟨rfl, rfl⟩
  · unfold icimsPages scrape_liberty_icims
    by_cases hA : (iSitemapPass wi).isEmpty = true
    · rw [if_pos hA]
      rw [List.forall_iff_forall_mem]
      exact hicims.2.2
    · rw [if_neg hA]
      trivial

/-- C5: de-duplication. The Workday scraper never navigates to the same
detail URL twice and the emitted records carry pairwise distinct URLs; the
iCIMS scraper iterates a de-duplicated sitemap link list, and the new-link
batches its paginated fallback processes are pairwise disjoint across
pages (no link is processed on two different pages). -/
theorem c5_dedup (wz : ZWorld) (wi : IWorld) :
    (zVisitedUrls wz).Nodup ∧
    ((zRecs wz).map Record.url).Nodup ∧
    (iSitemapLinks wi).Nodup ∧
    List.Pairwise (fun p q => ∀ x ∈ p, x ∉ q) (icimsPages wi) := by
  refine ⟨?_, ?_, ?_, ?_⟩
  · cases hg : wz.gotoBoardFails with
    | true =>
      unfold zVisitedUrls
      rw [zTrace_fail wz hg]
      exact List.nodup_nil
    | false =>
      unfold zVisitedUrls
      rw [zTrace_ok wz hg]
      obtain ⟨_, _, _, h3, _, h5⟩ := zSeenAfterApi_spec wz
      rw [List.filterMap_cons, List.filterMap_cons, List.filterMap_append, h3,
        (map_visit_events ((zSeenAfterApi wz).2.take 120)).2.2.2]
      show ((zSeenAfterApi wz).2.take 120).Nodup
      exact List.Nodup.sublist (List.take_sublist 120 _) h5
  · cases hg : wz.gotoBoardFails with
    | true =>
      rw [zRecs_fail wz hg]
      exact List.nodup_nil
    | false =>
      rw [zRecs_ok wz hg]
      obtain ⟨_, _, _, _, _, h5⟩ := zSeenAfterApi_spec wz
      exact zVisit_urls_nodup wz _ (List.Nodup.sublist (List.take_sublist 120 _) h5)
  · unfold iSitemapLinks
    cases hs : wi.sitemap with
    | none => exact List.nodup_nil
    | some p =>
      obtain ⟨ok, links⟩ := p
      cases ok with
      | false => exact List.nodup_nil
      | true =>
        dsimp only
        exact List.Nodup.sublist (List.take_sublist 200 _) (dedupF_nodup links)
  · unfold icimsPages scrape_liberty_icims
    by_cases hA : (iSitemapPass wi).isEmpty = true
    · rw [if_pos hA]
      exact (iSearchLoop_disjoint wi 6 0 []).1
    · rw [if_neg hA]
      exact List.Pairwise.nil

/-! ## Apple (Jobs via Playwright): scrape_apple (src/scrape.py lines 113-163) -/

/-- One team URL's interaction: gotoFails = the page.goto raised (inside a
try/finally with no except, so it PROPAGATES); links = the detail anchors
eval_on_selector_all returned; detail = per detail page, none when its
goto raised (swallowed, page skipped). -/
structure ATeam where
  url : String
  gotoFails : Bool
  links : List String
  detail : String → Option DetailView

/-- One detail page (lines 130-157): title from h1 (else ""), the
"(Apple role)" placeholder when it cleans empty; location from the first
matching selector; the record is always appended. -/
def appleVisit (t : ATeam) (href : String) : Option Record :=
  match t.detail href with
  | none => none
  | some d =>
    let title := clean_text (some (d.h1.getD ""))
    some { source := "apple", company := "Apple",
           title := if title.isEmpty then "(Apple role)" else title,
           location := firstLoc d.locTexts, url := .str href }

/-- One team page: list(set(links))[:80], then the detail loop. -/
def appleTeam (t : ATeam) : Except PyErr (List Record) :=
  if t.gotoFails then .error .navError
  else .ok (((dedupF t.links).take 80).filterMap (appleVisit t))

/-- scrape_apple over the team URLs; a team whose goto raised aborts the
whole scraper (and apple.json is never written). -/
def scrape_apple : List ATeam → Except PyErr (List Record)
  | [] => .ok []
  | t :: ts =>
    match appleTeam t with
    | .error e => .error e
    | .ok r =>
      match scrape_apple ts with
      | .error e => .error e
      | .ok rest => .ok (r ++ rest)

/-- The records written to apple.json ([] when an exception propagates). -/
def appleRecords (ts : List ATeam) : List Record :=
  match scrape_apple ts with
  | .ok r => r
  | .error _ => []

/-! ## main (src/scrape.py lines 311-337) -/

/-- The Greenhouse fetch around the parse loop: get may raise, then
r.raise_for_status() on a non-ok response; the body is the parsed JSON. -/
def scrape_airbnb_run (resp : Option (Bool × JValue)) : Except PyErr (List Record) :=
  match resp with
  | none => .error .netError
  | some (ok, body) => if !ok then .error .httpError else scrape_airbnb_greenhouse_v1 body

structure World where
  greenhouse : Option (Bool × JValue)
  icims : IWorld
  apple : List ATeam
  zillow : ZWorld

/-- main: run the four scrapers in order; the result is the list of
(file name, records) pairs save_json writes, or the first propagated
exception (everything after it, including its own file, is not written). -/
def mainRun (w : World) : Except PyErr (List (String × List Record)) :=
  match scrape_airbnb_run w.greenhouse with
  | .error e => .error e
  | .ok a =>
    match (scrape_liberty_icims w.icims).2.2 with
    | .error e => .error e
    | .ok l =>
      match scrape_apple w.apple with
      | .error e => .error e
      | .ok p =>
        match (scrape_zillow_workday w.zillow).2 with
        | .error e => .error e
        | .ok z =>
          .ok [("airbnb.json", a), ("libertymutual.json", l),
               ("apple.json", p), ("zillow.json", z)]

/-- The dict keys of a record, in the literal's order. -/
def recKeys (r : Record) : List String := r.toPairs.map Prod.fst

/-! ### Per-record facts for each scraper's emitter -/

theorem jobCont_ok (kvs : List (String × JValue)) (loc : JValue) (r : Record)
    (h : jobCont kvs loc = .ok r) :
    r.source = "greenhouse" ∧ r.company = "Airbnb" := by
  unfold jobCont at h
  dsimp only at h
  cases h1 : clean_text_py ((kvs.lookup "title").getD (.str "")) with
  | error e => rw [h1] at h; cases h
  | ok t =>
    rw [h1] at h
    dsimp only at h
    cases h2 : clean_text_py loc with
    | error e => rw [h2] at h; cases h
    | ok lo =>
      rw [h2] at h
      dsimp only at h
      injection h with h
      rw [← h]
      exact ⟨rfl, rfl⟩

theorem greenhouseJobV1_ok (j : JValue) (r : Record)
    (h : greenhouseJobV1 j = .ok r) :
    r.source = "greenhouse" ∧ r.company = "Airbnb" := by
  unfold greenhouseJobV1 at h
  cases j with
  | obj kvs => exact jobCont_ok kvs _ r h
  | null => cases h
  | bool b => cases h
  | num n => cases h
  | str s => cases h
  | arr xs => cases h

theorem exMapM_forall (f : JValue → Except PyErr Record) (P : Record → Prop)
    (hf : ∀ j r, f j = .ok r → P r) : ∀ (js : List JValue) (rs : List Record),
    exMapM f js = .ok rs → List.Forall P rs := by
  intro js
  induction js with
  | nil =>
    intro rs h
    injection h with h
    rw [← h]
    trivial
  | cons j t ih =>
    intro rs h
    unfold exMapM at h
    cases h1 : f j with
    | error e => rw [h1] at h; cases h
    | ok r =>
      rw [h1] at h
      dsimp only at h
      cases h2 : exMapM f t with
      | error e => rw [h2] at h; cases h
      | ok rest =>
        rw [h2] at h
        dsimp only at h
        injection h with h
        rw [← h, List.forall_cons]
        exact ⟨hf j r h1, ih rest h2⟩

theorem filterMap_forall {α : Type} (g : α → Option Record) (P : Record → Prop)
    (hg : ∀ a r, g a = some r → P r) : ∀ l : List α, List.Forall P (l.filterMap g) := by
  intro l
  induction l with
  | nil => trivial
  | cons a t ih =>
    rw [List.filterMap_cons]
    cases hv : g a with
    | none => exact ih
    | some r =>
      rw [List.forall_cons]
      exact ⟨hg a r hv, ih⟩

theorem forall_append (P : Record → Prop) (l1 l2 : List Record)
    (h1 : List.Forall P l1) (h2 : List.Forall P l2) : List.Forall P (l1 ++ l2) := by
  rw [List.forall_iff_forall_mem] at h1 h2 ⊢
  intro x hx
  rcases List.mem_append.mp hx with h | h
  · exact h1 x h
  · exact h2 x h

theorem iRecordA_fields (d : IDoc) (href : String) :
    (iRecordA d href).source = "icims" ∧ (iRecordA d href).company = "Liberty Mutual" ∧
      (iRecordA d href).title ≠ "" := by
  unfold iRecordA
  refine ⟨rfl, rfl, ?_⟩
  dsimp only
  by_cases h : (if (clean_text (some (d.h1.getD ""))).isEmpty = true then
      (match d.og with
       | some c => clean_text (some c)
       | none => "")
    else clean_text (some (d.h1.getD ""))).isEmpty = true
  · rw [if_pos h]
    intro hc
    exact absurd hc (by decide)
  · rw [if_neg h]
    intro hc
    rw [← String.isEmpty_iff] at hc
    exact h hc

theorem iVisitA_some (w : IWorld) (href : String) (r : Record)
    (h : iVisitA w href = some r) :
    r.source = "icims" ∧ r.company = "Liberty Mutual" ∧ r.title ≠ "" := by
  unfold iVisitA at h
  cases hd : w.detailA href with
  | none => rw [hd] at h; cases h
  | some o =>
    rw [hd] at h
    cases o with
    | none => cases h
    | some d =>
      dsimp only at h
      injection h with h
      rw [← h]
      exact iRecordA_fields d href

theorem iRecordB_fields (d : IDoc) (href : String) :
    (iRecordB d href).source = "icims" ∧ (iRecordB d href).company = "Liberty Mutual" ∧
      (iRecordB d href).title ≠ "" := by
  unfold iRecordB
  refine ⟨rfl, rfl, ?_⟩
  dsimp only
  by_cases h : (clean_text (some (d.h1.getD ""))).isEmpty = true
  · rw [if_pos h]
    intro hc
    exact absurd hc (by decide)
  · rw [if_neg h]
    intro hc
    rw [← String.isEmpty_iff] at hc
    exact h hc

theorem iVisitB_some (w : IWorld) (href : String) (r : Record)
    (h : iVisitB w href = some r) :
    r.source = "icims" ∧ r.company = "Liberty Mutual" ∧ r.title ≠ "" := by
  unfold iVisitB at h
  cases hd : w.detailB href with
  | none => rw [hd] at h; cases h
  | some o =>
    rw [hd] at h
    cases o with
    | none => cases h
    | some d =>
      dsimp only at h
      injection h with h
      rw [← h]
      exact iRecordB_fields d href

theorem iSearchLoop_forall (w : IWorld) (P : Record → Prop)
    (hf : ∀ href r, iVisitB w href = some r → P r) :
    ∀ (f pr : Nat) (seen : List String) (rs : List Record),
    (iSearchLoop w f pr seen).2.2 = .ok rs → List.Forall P rs := by
  intro f
  induction f with
  | zero =>
    intro pr seen rs h
    injection h with h
    rw [← h]
    trivial
  | succ f ih =>
    intro pr seen rs h
    unfold iSearchLoop at h
    cases hs : w.search pr with
    | none => rw [hs] at h; cases h
    | some p =>
      obtain ⟨ok, raw⟩ := p
      rw [hs] at h
      dsimp only at h
      by_cases hok : (!ok) = true
      · rw [if_pos hok] at h
        injection h with h
        rw [← h]
        trivial
      · rw [if_neg hok] at h
        by_cases he : (raw.filter (fun l => !(seen.contains l))).isEmpty = true
        · rw [if_pos he] at h
          injection h with h
          rw [← h]
          trivial
        · rw [if_neg he] at h
          cases hr : iSearchLoop w f (pr + 1)
              (addAll seen (raw.filter (fun l => !(seen.contains l)))) with
          | mk n rest =>
            obtain ⟨pgs, rr⟩ := rest
            rw [hr] at h
            cases rr with
            | error e => cases h
            | ok rest2 =>
              dsimp only at h
              injection h with h
              rw [← h]
              refine forall_append P _ _ ?_ (ih (pr + 1) _ rest2 (by rw [hr]))
              exact filterMap_forall (iVisitB w) P (fun a r hh => hf a r hh) _

theorem icims_records_forall (w : IWorld) (P : Record → Prop)
    (hA : ∀ href r, iVisitA w href = some r → P r)
    (hB : ∀ href r, iVisitB w href = some r → P r)
    (rs : List Record) (h : (scrape_liberty_icims w).2.2 = .ok rs) :
    List.Forall P rs := by
  unfold scrape_liberty_icims at h
  by_cases hempty : (iSitemapPass w).isEmpty = true
  · rw [if_pos hempty] at h
    exact iSearchLoop_forall w P hB 6 0 [] rs h
  · rw [if_neg hempty] at h
    dsimp only at h
    injection h with h
    rw [← h]
    exact filterMap_forall (iVisitA w) P hA _

theorem appleVisit_some (t : ATeam) (href : String) (r : Record)
    (h : appleVisit t href = some r) :
    r.source = "apple" ∧ r.company = "Apple" ∧ r.title ≠ "" := by
  unfold appleVisit at h
  cases hd : t.detail href with
  | none => rw [hd] at h; cases h
  | some d =>
    rw [hd] at h
    dsimp only at h
    injection h with h
    rw [← h]
    refine ⟨rfl, rfl, ?_⟩
    dsimp only
    by_cases he : (clean_text (some (d.h1.getD ""))).isEmpty = true
    · rw [if_pos he]
      intro hc
      exact absurd hc (by decide)
    · rw [if_neg he]
      intro hc
      rw [← String.isEmpty_iff] at hc
      exact he hc

theorem scrape_apple_forall (P : Record → Prop)
    (hf : ∀ t href r, appleVisit t href = some r → P r) :
    ∀ (ts : List ATeam) (rs : List Record),
    scrape_apple ts = .ok rs → List.Forall P rs := by
  intro ts
  induction ts with
  | nil =>
    intro rs h
    injection h with h
    rw [← h]
    trivial
  | cons t rest ih =>
    intro rs h
    unfold scrape_apple at h
    cases h1 : appleTeam t with
    | error e => rw [h1] at h; cases h
    | ok r1 =>
      rw [h1] at h
      dsimp only at h
      cases h2 : scrape_apple rest with
      | error e => rw [h2] at h; cases h
      | ok r2 =>
        rw [h2] at h
        dsimp only at h
        injection h with h
        rw [← h]
        refine forall_append P _ _ ?_ (ih r2 h2)
        unfold appleTeam at h1
        by_cases hg : t.gotoFails = true
        · rw [if_pos hg] at h1; cases h1
        · rw [if_neg hg] at h1
          injection h1 with h1
          rw [← h1]
          exact filterMap_forall (appleVisit t) P (hf t) _

theorem zVisit_fields (w : ZWorld) (href : String) (r : Record)
    (h : zVisit w href = some r) :
    r.source = "workday" ∧ r.company = "Zillow" := by
  unfold zVisit at h
  cases hd : w.detail href with
  | none => rw [hd] at h; cases h
  | some d =>
    rw [hd] at h
    dsimp only at h
    by_cases ht : (clean_text (some (d.h1.getD ""))).isEmpty = true
    · rw [if_pos ht] at h; cases h
    · rw [if_neg ht] at h
      injection h with h
      rw [← h]
      exact ⟨rfl, rfl⟩

theorem zillow_records_forall (w : ZWorld) (P : Record → Prop)
    (hf : ∀ href r, zVisit w href = some r → P r)
    (rs : List Record) (h : (scrape_zillow_workday w).2 = .ok rs) :
    List.Forall P rs := by
  unfold scrape_zillow_workday at h
  by_cases hg : w.gotoBoardFails = true
  · rw [if_pos hg] at h; cases h
  · rw [if_neg hg] at h
    cases ha : zSeenAfterApi w with
    | mk evs seen =>
      rw [ha] at h
      dsimp only at h
      injection h with h
      rw [← h]
      exact filterMap_forall (zVisit w) P hf _

/-- C7: a complete run writes exactly the four per-employer files, in
order airbnb.json, libertymutual.json, apple.json, zillow.json; every
record in every file has exactly the dict keys source, company, title,
location, url; and each file's records carry that file's fixed
source/company pair. -/
theorem c7_output_files (w : World) (files : List (String × List Record))
    (h : mainRun w = .ok files) :
    files.map Prod.fst =
      ["airbnb.json", "libertymutual.json", "apple.json", "zillow.json"] ∧
    (∀ f ∈ files, ∀ r ∈ f.2,
      recKeys r = ["source", "company", "title", "location", "url"]) ∧
    ∃ a l p z,
      files = [("airbnb.json", a), ("libertymutual.json", l),
        ("apple.json", p), ("zillow.json", z)] ∧
      List.Forall (fun r => r.source = "greenhouse" ∧ r.company = "Airbnb") a ∧
      List.Forall (fun r => r.source = "icims" ∧ r.company = "Liberty Mutual") l ∧
      List.Forall (fun r => r.source = "apple" ∧ r.company = "Apple") p ∧
      List.Forall (fun r => r.source = "workday" ∧ r.company = "Zillow") z := by
  unfold mainRun at h
  cases h1 : scrape_airbnb_run w.greenhouse with
  | error e => rw [h1] at h; cases h
  | ok a =>
    rw [h1] at h
    dsimp only at h
    cases h2 : (scrape_liberty_icims w.icims).2.2 with
    | error e => rw [h2] at h; cases h
    | ok l =>
      rw [h2] at h
      dsimp only at h
      cases h3 : scrape_apple w.apple with
      | error e => rw [h3] at h; cases h
      | ok p =>
        rw [h3] at h
        dsimp only at h
        cases h4 : (scrape_zillow_workday w.zillow).2 with
        | error e => rw [h4] at h; cases h
        | ok z =>
          rw [h4] at h
          dsimp only at h
          injection h with h
          subst h
          have ha : List.Forall (fun r => r.source = "greenhouse" ∧ r.company = "Airbnb") a := by
            unfold scrape_airbnb_run at h1
            cases hresp : w.greenhouse with
            | none => rw [hresp] at h1; cases h1
            | some p2 =>
              obtain ⟨ok2, body⟩ := p2
              rw [hresp] at h1
              dsimp only at h1
              by_cases hok : (!ok2) = true
              · rw [if_pos hok] at h1; cases h1
              · rw [if_neg hok] at h1
                unfold scrape_airbnb_greenhouse_v1 at h1
                cases hjobs : greenhouse_jobs_of body with
                | error e => rw [hjobs] at h1; cases h1
                | ok js =>
                  rw [hjobs] at h1
                  dsimp only at h1
                  exact exMapM_forall greenhouseJobV1 _
                    (fun j r hh => greenhouseJobV1_ok j r hh) js a h1
          have hl : List.Forall (fun r => r.source = "icims" ∧ r.company = "Liberty Mutual") l :=
            icims_records_forall w.icims _
              (fun href r hh => ⟨(iVisitA_some _ _ _ hh).1, (iVisitA_some _ _ _ hh).2.1⟩)
              (fun href r hh => ⟨(iVisitB_some _ _ _ hh).1, (iVisitB_some _ _ _ hh).2.1⟩) l h2
          have hp : List.Forall (fun r => r.source = "apple" ∧ r.company = "Apple") p :=
            scrape_apple_forall _
              (fun t href r hh => ⟨(appleVisit_some _ _ _ hh).1, (appleVisit_some _ _ _ hh).2.1⟩)
              w.apple p h3
          have hz : List.Forall (fun r => r.source = "workday" ∧ r.company = "Zillow") z :=
            zillow_records_forall w.zillow _ (fun href r hh => zVisit_fields _ _ _ hh) z h4
          refine ⟨rfl, ?_, a, l, p, z, rfl, ha, hl, hp, hz⟩
          intro f _ r _
          rfl

/-- Pieces of the everything-succeeds world the C7 witness runs main on. -/
def w0doc : IDoc := { h1 := some "Engineer", og := none, loc := some "Boston" }

def w0icims : IWorld :=
  { sitemap := some (true, ["https://careers-libertymutual.icims.com/jobs/1/eng"]),
    detailA := fun _ => some (some w0doc),
    search := fun _ => some (true, []),
    detailB := fun _ => none }

def w0appleDoc : DetailView := { h1 := some "QA Engineer", locTexts := [some "Cupertino"] }

def w0apple : ATeam :=
  { url := "https://jobs.apple.com/t", gotoFails := false,
    links := ["https://jobs.apple.com/details/1"],
    detail := fun _ => some w0appleDoc }

def w0zillow : ZWorld :=
  { boardUrl := "https://z", gotoBoardFails := false,
    domLinks := fun _ => [], selCount := fun _ _ => false,
    selClickFails := fun _ _ => false, apiThrows := fun _ => false,
    apiOk := fun _ => false, apiJobs := fun _ => [],
    detail := fun _ => none }

def w0 : World :=
  { greenhouse := some (true, .obj [("jobs",
      .arr [.obj [("title", .str "T"), ("absolute_url", .str "https://g/1")]])]),
    icims := w0icims,
    apple := [w0apple],
    zillow := w0zillow }

def w0files : List (String × List Record) :=
  [("airbnb.json", [⟨"greenhouse", "Airbnb", "T", "", .str "https://g/1"⟩]),
   ("libertymutual.json", [⟨"icims", "Liberty Mutual", "Engineer", "Boston",
      .str "https://careers-libertymutual.icims.com/jobs/1/eng"⟩]),
   ("apple.json", [⟨"apple", "Apple", "QA Engineer", "Cupertino",
      .str "https://jobs.apple.com/details/1"⟩]),
   ("zillow.json", [])]

theorem c7_output_files_witness :
    mainRun w0 = .ok w0files ∧
    (w0files.map Prod.fst =
      ["airbnb.json", "libertymutual.json", "apple.json", "zillow.json"] ∧
    (∀ f ∈ w0files, ∀ r ∈ f.2,
      recKeys r = ["source", "company", "title", "location", "url"]) ∧
    ∃ a l p z,
      w0files = [("airbnb.json", a), ("libertymutual.json", l),
        ("apple.json", p), ("zillow.json", z)] ∧
      List.Forall (fun r => r.source = "greenhouse" ∧ r.company = "Airbnb") a ∧
      List.Forall (fun r => r.source = "icims" ∧ r.company = "Liberty Mutual") l ∧
      List.Forall (fun r => r.source = "apple" ∧ r.company = "Apple") p ∧
      List.Forall (fun r => r.source = "workday" ∧ r.company = "Zillow") z) :=
  ⟨rfl, c7_output_files w0 w0files rfl⟩

/-- C9: every record that reaches apple.json, libertymutual.json or
zillow.json has a non-empty title: the Workday scraper drops postings
whose extracted title cleans to "", while the Apple and iCIMS scrapers
substitute the "(Apple role)" / "(Job)" placeholders. -/
theorem c9_nonempty_titles (wz : ZWorld) (wa : List ATeam) (wi : IWorld) :
    List.Forall (fun r => r.title ≠ "") (zRecs wz) ∧
    List.Forall (fun r => r.title ≠ "") (appleRecords wa) ∧
    List.Forall (fun r => r.title ≠ "") (icimsRecords wi) := by
  refine ⟨?_, ?_, ?_⟩
  · cases hg : wz.gotoBoardFails with
    | true => rw [zRecs_fail wz hg]; trivial
    | false =>
      rw [zRecs_ok wz hg]
      exact filterMap_forall (zVisit wz) _
        (fun a r hh => (zVisit_some wz a r hh).2.1) _
  · unfold appleRecords
    cases hs : scrape_apple wa with
    | error e => trivial
    | ok rs =>
      exact scrape_apple_forall _
        (fun t href r hh => (appleVisit_some t href r hh).2.2) wa rs hs
  · unfold icimsRecords
    cases hs : (scrape_liberty_icims wi).2.2 with
    | error e => trivial
    | ok rs =>
      exact icims_records_forall wi _
        (fun href r hh => (iVisitA_some wi href r hh).2.2)
        (fun href r hh => (iVisitB_some wi href r hh).2.2) rs hs
